import Mathlib

/-!
Shallow embedding of the peak/variant bookkeeping code of the repository
(src/lab/peak/varpeak.py and src/peak/narrow_peak.py), together with proofs
of the specified properties.

Python dictionaries keyed by variant positions are embedded as association
lists in insertion order (a fresh key is appended at the end, an existing key
is updated in place), matching CPython dict semantics.  The fixed-key tables
over genic regions are embedded as total functions out of `GenicRegion`.
Assertion failures are embedded as `none` results.
-/

/-- The seven genic-region categories.  The enumeration and its order follow
the list in src/peak/narrow_peak.py (line 142); the module lab/gene/anno.py is
not under src, and the spec gives the same seven categories. -/
inductive GenicRegion where
  | ORF
  | UTR5
  | UTR3
  | ncRNA_exonic
  | intronic
  | ncRNA_intronic
  | intergenic
deriving DecidableEq, Fintype

/-- Modelled from the spec: the function genic_region_list of the missing
module lab/gene/anno.py returns the fixed list of genic regions, in the order
given in src/peak/narrow_peak.py line 142. -/
def genic_region_list : List GenicRegion :=
  [.ORF, .UTR5, .UTR3, .ncRNA_exonic, .intronic, .ncRNA_intronic, .intergenic]

/-- Modelled from the spec: the external annotation decoder collaborators
parse_anno_val (annotation value to per-region boolean membership) and
get_repr_anno (annotation value to a pair of an is-multi flag and a single
representative region) of the missing module lab/gene/anno.py.  The core only
consumes their documented contract, so they are kept abstract as a pair of
pure functions over annotation values (embedded as naturals). -/
structure AnnoDecoder where
  parse_anno_val : Nat → GenicRegion → Bool
  get_repr_anno : Nat → Bool × GenicRegion

/-- Modelled from the spec: the external variant collaborator VCFData, with a
0-based position, a strand-aware annotation value lookup and a strand-aware
associated-genes lookup (the gene mapping is embedded as an opaque natural). -/
structure VCFData where
  pos : Nat
  get_anno_val : String → Nat
  get_assoc_genes : String → Nat

/-- Lookup in an association list embedding a Python dict (`d.get(k)`). -/
def alLookup {α : Type} (m : List (Nat × α)) (k : Nat) : Option α :=
  match m with
  | [] => none
  | (k2, v) :: rest => if k = k2 then some v else alLookup rest k

/-- Assignment `d[k] = v` on an association list embedding a Python dict:
update in place when the key is present, append at the end otherwise. -/
def alSet {α : Type} (m : List (Nat × α)) (k : Nat) (v : α) : List (Nat × α) :=
  match m with
  | [] => [(k, v)]
  | (k2, w) :: rest => if k = k2 then (k2, v) :: rest else (k2, w) :: alSet rest k v

/-- Point update of a genic-region table (`t[r] = v`). -/
def tset (t : GenicRegion → Nat) (r : GenicRegion) (v : Nat) : GenicRegion → Nat :=
  fun r2 => if r2 = r then v else t r2

/-- Increment of a genic-region table (`t[r] += k`). -/
def tadd (t : GenicRegion → Nat) (r : GenicRegion) (k : Nat) : GenicRegion → Nat :=
  tset t r (t r + k)

/-- The raw-aggregate increment loop shared by gene_based_annotation (lines
200-202), put_variant (lines 250-252), combine (lines 53-55) and cut (lines
96-98) of varpeak.py: for every genic region flagged by the decoded annotation
value, add `k` to its table entry. -/
def bump_region_var (D : AnnoDecoder) (anno_val : Nat) (k : Nat)
    (t : GenicRegion → Nat) : GenicRegion → Nat :=
  genic_region_list.foldl
    (fun t2 r => if D.parse_anno_val anno_val r then tadd t2 r k else t2) t

/-- The representative-aggregate increment shared by gene_based_annotation
(lines 208-212), put_variant (lines 254-258), combine (lines 57-61) and cut
(lines 100-104) of varpeak.py: on a multi classification add `k` to both UTR
buckets, otherwise add `k` to the single representative bucket. -/
def bump_repr_var (D : AnnoDecoder) (anno_val : Nat) (k : Nat)
    (t : GenicRegion → Nat) : GenicRegion → Nat :=
  let pr := D.get_repr_anno anno_val
  if pr.1 then tadd (tadd t .UTR5 k) .UTR3 k else tadd t pr.2 k

/-- The state of a VarPeak object (varpeak.py lines 11-24).  The descriptive
base-class fields not used by the embedded operations are omitted; the field
`end` of the source is renamed `end_` because `end` is a Lean keyword. -/
structure VarPeak where
  chrom : String
  start : Nat
  end_ : Nat
  strand : String
  var_pos_to_cnt : List (Nat × Nat)
  var_pos_to_anno_val : List (Nat × Nat)
  var_pos_to_genes : List (Nat × Nat)
  anno_vals : List Nat
  genic_region_to_size : GenicRegion → Nat
  genic_region_to_var_cnt : GenicRegion → Nat
  repr_genic_region_to_size : GenicRegion → Nat
  repr_genic_region_to_var_cnt : GenicRegion → Nat

namespace VarPeak

/-- Freshly constructed VarPeak (varpeak.py lines 11-24): empty variant maps
and all-zero tables.  Modelled from the spec for the constructor arguments of
the missing base class lab/peak/narrow.py (chrom, start, end, strand). -/
def mk0 (chrom : String) (start end_ : Nat) (strand : String) : VarPeak :=
  { chrom := chrom
    start := start
    end_ := end_
    strand := strand
    var_pos_to_cnt := []
    var_pos_to_anno_val := []
    var_pos_to_genes := []
    anno_vals := []
    genic_region_to_size := fun _ => 0
    genic_region_to_var_cnt := fun _ => 0
    repr_genic_region_to_size := fun _ => 0
    repr_genic_region_to_var_cnt := fun _ => 0 }

/-- Modelled from the spec: get_size of the missing base class
lab/peak/narrow.py returns the peak span `end - start`. -/
def get_size (p : VarPeak) : Nat := p.end_ - p.start

/-- varpeak.py lines 152-160: the recorded count at a position, with the
assert-not-none embedded as an Option. -/
def get_var_cnt_in_pos (p : VarPeak) (var_pos : Nat) : Option Nat :=
  alLookup p.var_pos_to_cnt var_pos

/-- varpeak.py lines 162-170. -/
def get_anno_val_in_pos (p : VarPeak) (var_pos : Nat) : Option Nat :=
  alLookup p.var_pos_to_anno_val var_pos

/-- varpeak.py lines 172-177 (direct dict indexing, a missing key raises). -/
def get_genes_in_pos (p : VarPeak) (var_pos : Nat) : Option Nat :=
  alLookup p.var_pos_to_genes var_pos

/-- varpeak.py lines 135-139: the sorted list of recorded variant positions. -/
def get_var_pos_list (p : VarPeak) : List Nat :=
  List.insertionSort (fun a b => a ≤ b) (p.var_pos_to_cnt.map Prod.fst)

/-- varpeak.py lines 141-150: the total variant count. -/
def get_var_cnt (p : VarPeak) : Nat :=
  (p.var_pos_to_cnt.map Prod.snd).sum

/-- varpeak.py lines 186-212, gene_based_annotation: asserts the length of the
annotation list equals the peak size, stores the list, and accumulates the raw
and representative per-nucleotide size tables. -/
def gene_based_anno (D : AnnoDecoder) (p : VarPeak) (anno_val_list : List Nat) :
    Option VarPeak :=
  if anno_val_list.length = p.get_size then
    some { p with
      anno_vals := anno_val_list
      genic_region_to_size :=
        anno_val_list.foldl (fun t av => bump_region_var D av 1 t)
          p.genic_region_to_size
      repr_genic_region_to_size :=
        anno_val_list.foldl (fun t av => bump_repr_var D av 1 t)
          p.repr_genic_region_to_size }
  else none

/-- varpeak.py lines 233-237: the annotation value to be stored at the
position of the variant, failing on a mismatch with an already stored value. -/
def avRes (p : VarPeak) (v : VCFData) : Option Nat :=
  match alLookup p.var_pos_to_anno_val v.pos with
  | none => some (v.get_anno_val p.strand)
  | some a => if a = v.get_anno_val p.strand then some a else none

/-- varpeak.py lines 240-244: the associated genes to be stored at the
position of the variant, failing on a mismatch with an already stored value. -/
def genesRes (p : VarPeak) (v : VCFData) : Option Nat :=
  match alLookup p.var_pos_to_genes v.pos with
  | none => some (v.get_assoc_genes p.strand)
  | some g => if g = v.get_assoc_genes p.strand then some g else none

/-- varpeak.py lines 214-258, put_variant: asserts the position is in range,
increments the per-position count, stores or re-asserts the annotation value
and the associated genes, and bumps the raw and representative variant-count
tables by 1 using the stored annotation value. -/
def put_variant (D : AnnoDecoder) (p : VarPeak) (v : VCFData) : Option VarPeak :=
  if p.start ≤ v.pos ∧ v.pos < p.end_ then
    let new_cnt :=
      match alLookup p.var_pos_to_cnt v.pos with
      | none => alSet p.var_pos_to_cnt v.pos 1
      | some c => alSet p.var_pos_to_cnt v.pos (c + 1)
    match avRes p v, genesRes p v with
    | some av, some gs =>
      some { p with
        var_pos_to_cnt := new_cnt
        var_pos_to_anno_val := alSet p.var_pos_to_anno_val v.pos av
        var_pos_to_genes := alSet p.var_pos_to_genes v.pos gs
        genic_region_to_var_cnt := bump_region_var D av 1 p.genic_region_to_var_cnt
        repr_genic_region_to_var_cnt :=
          bump_repr_var D av 1 p.repr_genic_region_to_var_cnt }
    | _, _ => none
  else none

/-- varpeak.py lines 34-61, one iteration of the combine loop at one variant
position of `other`: read count, annotation value and genes from `other`
(asserts embedded as Option), either insert them into `self` or re-assert them
and add the count, and then bump the raw and representative variant-count
tables by the count of `other` (the bump is outside the if/else in the
source, so it runs in both branches). -/
def combine_pos (D : AnnoDecoder) (s other : VarPeak) (var_pos : Nat) :
    Option VarPeak :=
  match other.get_var_cnt_in_pos var_pos, other.get_anno_val_in_pos var_pos,
      other.get_genes_in_pos var_pos with
  | some var_cnt, some anno_val, some genes =>
    let step1 : Option VarPeak :=
      match alLookup s.var_pos_to_cnt var_pos with
      | none =>
        some { s with
          var_pos_to_anno_val := alSet s.var_pos_to_anno_val var_pos anno_val
          var_pos_to_genes := alSet s.var_pos_to_genes var_pos genes
          var_pos_to_cnt := alSet s.var_pos_to_cnt var_pos var_cnt }
      | some c =>
        if alLookup s.var_pos_to_anno_val var_pos = some anno_val ∧
            alLookup s.var_pos_to_genes var_pos = some genes then
          some { s with var_pos_to_cnt := alSet s.var_pos_to_cnt var_pos (c + var_cnt) }
        else none
    match step1 with
    | some s2 =>
      some { s2 with
        genic_region_to_var_cnt :=
          bump_region_var D anno_val var_cnt s2.genic_region_to_var_cnt
        repr_genic_region_to_var_cnt :=
          bump_repr_var D anno_val var_cnt s2.repr_genic_region_to_var_cnt }
    | none => none
  | _, _, _ => none

/-- varpeak.py lines 26-61, combine: asserts the two peaks denote the same
interval and strand (modelled from the spec, since the equality of the missing
base class lab/peak/narrow.py is specified as same chrom, start, end and
strand), then folds the per-position combine step over the recorded positions
of `other` in dict order. -/
def combine (D : AnnoDecoder) (s other : VarPeak) : Option VarPeak :=
  if s.chrom = other.chrom ∧ s.start = other.start ∧ s.end_ = other.end_ ∧
      s.strand = other.strand then
    (other.var_pos_to_cnt.map Prod.fst).foldl
      (fun acc var_pos => acc.bind (fun s2 => combine_pos D s2 other var_pos))
      (some s)
  else none

/-- varpeak.py lines 83-104, the body of the in-range branch of the cut loop
at one variant position: copy count, annotation value and genes from the
source into the accumulator and bump the raw and representative variant-count
tables by the copied count. -/
def cut_put (D : AnnoDecoder) (source acc : VarPeak) (var_pos : Nat) :
    Option VarPeak :=
  match alLookup source.var_pos_to_cnt var_pos,
      alLookup source.var_pos_to_anno_val var_pos,
      alLookup source.var_pos_to_genes var_pos with
  | some var_cnt, some var_anno_val, some assoc_genes =>
    some { acc with
      var_pos_to_cnt := alSet acc.var_pos_to_cnt var_pos var_cnt
      var_pos_to_anno_val := alSet acc.var_pos_to_anno_val var_pos var_anno_val
      var_pos_to_genes := alSet acc.var_pos_to_genes var_pos assoc_genes
      genic_region_to_var_cnt :=
        bump_region_var D var_anno_val var_cnt acc.genic_region_to_var_cnt
      repr_genic_region_to_var_cnt :=
        bump_repr_var D var_anno_val var_cnt acc.repr_genic_region_to_var_cnt }
  | _, _, _ => none

/-- varpeak.py lines 81-107, the cut loop over the sorted variant positions:
process positions inside the requested interval, break at the first position
at or beyond the requested end, skip positions below the requested start. -/
def cut_loop (D : AnnoDecoder) (source : VarPeak) (start end_ : Nat)
    (acc : VarPeak) : List Nat → Option VarPeak
  | [] => some acc
  | var_pos :: rest =>
    if start ≤ var_pos ∧ var_pos < end_ then
      match cut_put D source acc var_pos with
      | some acc2 => cut_loop D source start end_ acc2 rest
      | none => none
    else if end_ ≤ var_pos then some acc
    else cut_loop D source start end_ acc rest

/-- The straight-line version of the cut loop with no early exit: fold the
per-position copy step over a given position list. -/
def cut_run (D : AnnoDecoder) (source : VarPeak) (acc : VarPeak)
    (l : List Nat) : Option VarPeak :=
  l.foldl (fun o var_pos => o.bind (fun a => cut_put D source a var_pos)) (some acc)

/-- The list of positions actually processed by the early-exit scan of the cut
loop: the longest prefix below the requested end, restricted to positions at
or above the requested start. -/
def scan_positions (l : List Nat) (start end_ : Nat) : List Nat :=
  (l.takeWhile (fun x => decide (x < end_))).filter (fun x => decide (start ≤ x))

/-- varpeak.py lines 63-109, cut: asserts the requested interval is a valid
sub-interval, builds a fresh peak over it, annotates it with the slice of the
annotation values, and copies the recorded variants whose positions fall in
the interval through the early-exit loop over the sorted position list. -/
def cut (D : AnnoDecoder) (p : VarPeak) (start end_ : Nat) : Option VarPeak :=
  if p.start ≤ start ∧ start < end_ ∧ end_ ≤ p.end_ then
    let rel_start := start - p.start
    let rel_end := end_ - p.start
    let cut_anno_vals := (p.anno_vals.drop rel_start).take (rel_end - rel_start)
    match (mk0 p.chrom start end_ p.strand).gene_based_anno D cut_anno_vals with
    | some cut_peak => cut_loop D p start end_ cut_peak p.get_var_pos_list
    | none => none
  else none

end VarPeak

/-- narrow_peak.py line 155: the bit of a region code at a 1-based bit
position, the first bit being the most significant of the six. -/
def bitAt (region_val : Nat) (bit_pos : Nat) : Nat :=
  region_val / 2 ^ (6 - bit_pos) % 2

/-- narrow_peak.py lines 148-159: processing of one region code into the size
table: a zero code counts one intergenic nucleotide, otherwise every set bit
counts one nucleotide for the region at that bit position. -/
def np_code_step (t : GenicRegion → Nat) (region_val : Nat) : GenicRegion → Nat :=
  if region_val = 0 then tadd t .intergenic 1
  else
    [1, 2, 3, 4, 5, 6].foldl
      (fun t2 bit_pos =>
        if bitAt region_val bit_pos = 1 then
          match genic_region_list.get? (bit_pos - 1) with
          | some r => tadd t2 r 1
          | none => t2
        else t2) t

/-- narrow_peak.py lines 121-159, NarrowPeak.set_genic_region_size: resets the
table, then folds the per-code accumulation over the code list, failing (the
assert on line 149) when a code is 64 or more. -/
def set_genic_region_size (genic_region_val_list : List Nat) :
    Option (GenicRegion → Nat) :=
  genic_region_val_list.foldl
    (fun acc region_val =>
      acc.bind (fun t =>
        if region_val < 64 then some (np_code_step t region_val) else none))
    (some (fun _ => 0))

/-- The fixed positional bit-to-region mapping of set_genic_region_size,
written out as a predicate on codes: bit 1 is ORF, bit 2 is 5UTR, bit 3 is
3UTR, bit 4 is ncRNA_exonic, bit 5 is intronic, bit 6 is ncRNA_intronic, and
the code 0 stands for one intergenic nucleotide. -/
def code_flags (r : GenicRegion) (c : Nat) : Bool :=
  match r with
  | .ORF => bitAt c 1 = 1
  | .UTR5 => bitAt c 2 = 1
  | .UTR3 => bitAt c 3 = 1
  | .ncRNA_exonic => bitAt c 4 = 1
  | .intronic => bitAt c 5 = 1
  | .ncRNA_intronic => bitAt c 6 = 1
  | .intergenic => c = 0

/-- All codes of a list are below 64. -/
def all_lt64 (codes : List Nat) : Prop := ∀ c ∈ codes, c < 64

instance (codes : List Nat) : Decidable (all_lt64 codes) := by
  unfold all_lt64; infer_instance

/-!  Specification-side re-scan definitions.  These express what a fresh full
scan of the per-position maps or of the annotation vector would produce, and
are the yardstick the incrementally maintained tables are compared with. -/

/-- The 0/1 raw membership weight of a genic region in a decoded annotation
value. -/
def memb (D : AnnoDecoder) (av : Nat) (r : GenicRegion) : Nat :=
  if D.parse_anno_val av r then 1 else 0

/-- The 0/1 representative weight of a genic region in a decoded annotation
value: on a multi classification both UTR buckets weigh 1, otherwise only the
single representative region weighs 1. -/
def repr_memb (D : AnnoDecoder) (av : Nat) (r : GenicRegion) : Nat :=
  if (D.get_repr_anno av).1 then
    if r = .UTR5 ∨ r = .UTR3 then 1 else 0
  else if r = (D.get_repr_anno av).2 then 1 else 0

/-- The weight of the annotation value recorded for a key in an annotation
map, zero when the key is absent. -/
def wlook (w : Nat → GenicRegion → Nat) (anno : List (Nat × Nat)) (k : Nat)
    (r : GenicRegion) : Nat :=
  match alLookup anno k with
  | some av => w av r
  | none => 0

/-- Fresh re-scan of a count map against an annotation map: the sum over the
recorded positions of the recorded count times the weight of the recorded
annotation value. -/
def rescan_with (w : Nat → GenicRegion → Nat) (cnt anno : List (Nat × Nat))
    (r : GenicRegion) : Nat :=
  (cnt.map (fun e => e.2 * wlook w anno e.1 r)).sum

/-- Fresh re-scan of an annotation vector with the raw membership weight. -/
def size_rescan (D : AnnoDecoder) (l : List Nat) (r : GenicRegion) : Nat :=
  (l.map (fun av => memb D av r)).sum

/-- Fresh re-scan of an annotation vector with the representative weight. -/
def repr_size_rescan (D : AnnoDecoder) (l : List Nat) (r : GenicRegion) : Nat :=
  (l.map (fun av => repr_memb D av r)).sum

namespace VarPeak

/-- The keys of the three per-position maps agree. -/
def keyConsistent (p : VarPeak) : Prop :=
  ∀ k, ((alLookup p.var_pos_to_cnt k).isSome ↔
          (alLookup p.var_pos_to_anno_val k).isSome) ∧
       ((alLookup p.var_pos_to_cnt k).isSome ↔
          (alLookup p.var_pos_to_genes k).isSome)

/-- Every recorded position lies inside the peak interval. -/
def keysInRange (p : VarPeak) : Prop :=
  ∀ k, (alLookup p.var_pos_to_cnt k).isSome → p.start ≤ k ∧ k < p.end_

/-- The three per-position maps have no duplicate keys (true of any embedded
Python dict). -/
def mapsNodup (p : VarPeak) : Prop :=
  (p.var_pos_to_cnt.map Prod.fst).Nodup ∧
  (p.var_pos_to_anno_val.map Prod.fst).Nodup ∧
  (p.var_pos_to_genes.map Prod.fst).Nodup

/-- The two variant-count aggregate tables equal a fresh re-scan of the
per-position maps. -/
def aggCorrect (D : AnnoDecoder) (p : VarPeak) : Prop :=
  ∀ r, p.genic_region_to_var_cnt r =
         rescan_with (memb D) p.var_pos_to_cnt p.var_pos_to_anno_val r ∧
       p.repr_genic_region_to_var_cnt r =
         rescan_with (repr_memb D) p.var_pos_to_cnt p.var_pos_to_anno_val r

/-- The two size tables equal a fresh re-scan of the annotation vector. -/
def sizeCorrect (D : AnnoDecoder) (p : VarPeak) : Prop :=
  ∀ r, p.genic_region_to_size r = size_rescan D p.anno_vals r ∧
       p.repr_genic_region_to_size r = repr_size_rescan D p.anno_vals r

/-- The annotation vector is empty or spans the peak. -/
def annoLen (p : VarPeak) : Prop :=
  p.anno_vals = [] ∨ p.anno_vals.length = p.end_ - p.start

/-- The full state invariant maintained by the VarPeak lifecycle. -/
def FullInv (D : AnnoDecoder) (p : VarPeak) : Prop :=
  mapsNodup p ∧ keyConsistent p ∧ keysInRange p ∧ aggCorrect D p ∧
  sizeCorrect D p ∧ annoLen p

/-- The states reachable through the documented lifecycle: a freshly
constructed peak, gene_based_annotation applied once to a fresh peak, and then
any successful sequence of put_variant, combine (with a reachable other peak)
and cut calls. -/
inductive Reachable (D : AnnoDecoder) : VarPeak → Prop where
  | fresh : ∀ chrom start end_ strand,
      Reachable D (mk0 chrom start end_ strand)
  | anno : ∀ chrom start end_ strand l q,
      (mk0 chrom start end_ strand).gene_based_anno D l = some q →
      Reachable D q
  | put : ∀ p v q, Reachable D p → p.put_variant D v = some q → Reachable D q
  | comb : ∀ p o q, Reachable D p → Reachable D o →
      p.combine D o = some q → Reachable D q
  | cutStep : ∀ p a b q, Reachable D p → p.cut D a b = some q → Reachable D q

end VarPeak

/-!  Concrete decoder and peaks used by the closed instance theorems. -/

/-- A concrete annotation decoder for the closed instance theorems: the
annotation value is read as a 6-bit mask with the bit order of narrow_peak.py,
and the representative classification is multi exactly on the code 48 (both
UTR bits set), otherwise the first flagged region in list order, with
intergenic as the fallback. -/
def Dex : AnnoDecoder where
  parse_anno_val := fun av r => code_flags r av
  get_repr_anno := fun av =>
    if av = 48 then (true, .UTR5)
    else if code_flags .ORF av then (false, .ORF)
    else if code_flags .UTR5 av then (false, .UTR5)
    else if code_flags .UTR3 av then (false, .UTR3)
    else if code_flags .ncRNA_exonic av then (false, .ncRNA_exonic)
    else if code_flags .intronic av then (false, .intronic)
    else if code_flags .ncRNA_intronic av then (false, .ncRNA_intronic)
    else (false, .intergenic)

/-- A concrete variant at position 1 annotated as ORF (code 32). -/
def vEx : VCFData where
  pos := 1
  get_anno_val := fun _ => 32
  get_assoc_genes := fun _ => 7

/-- A concrete variant at position 0 with a multi-UTR annotation (code 48). -/
def vMulti : VCFData where
  pos := 0
  get_anno_val := fun _ => 48
  get_assoc_genes := fun _ => 3

/-- The fresh concrete peak over chr1 with the interval 0 to 2. -/
def pEx0 : VarPeak := VarPeak.mk0 "chr1" 0 2 "+"

/-- The concrete peak after one gene_based_annotation call with two pure ORF
nucleotides. -/
def pExA : VarPeak := (pEx0.gene_based_anno Dex [32, 32]).getD pEx0

/-- The concrete peak after additionally recording one variant at position 1. -/
def pEx : VarPeak := (pExA.put_variant Dex vEx).getD pEx0

/-- The concrete peak obtained by combining pEx with itself. -/
def cEx : VarPeak := (pEx.combine Dex pEx).getD pEx0

/-- The result of one already-present combine step of pEx with itself at
position 1. -/
def cpEx : VarPeak := (VarPeak.combine_pos Dex pEx pEx 1).getD pEx0

/-- The concrete peak obtained by cutting pEx over its full interval. -/
def qEx : VarPeak := (pEx.cut Dex 0 2).getD pEx0

/-- The concrete peak after recording the multi-UTR variant on pExA. -/
def pMulti : VarPeak := (pExA.put_variant Dex vMulti).getD pEx0

/-- The concrete peak obtained by combining pEx with pMulti (disjoint variant
position sets over the same interval). -/
def cdEx : VarPeak := (pEx.combine Dex pMulti).getD pEx0

section AssocLemmas

variable {α : Type}

theorem alLookup_alSet (m : List (Nat × α)) (k : Nat) (v : α) (k2 : Nat) :
    alLookup (alSet m k v) k2 = if k2 = k then some v else alLookup m k2 := by
  induction m with
  | nil =>
    by_cases h : k2 = k <;> simp [alSet, alLookup, h]
  | cons e rest ih =>
    obtain ⟨ke, ve⟩ := e
    by_cases hk : k = ke
    · subst hk
      by_cases h2 : k2 = k <;> simp [alSet, alLookup, h2]
    · by_cases h2 : k2 = ke
      · subst h2
        have hne : ¬ k2 = k := fun h => hk h.symm
        simp [alSet, alLookup, hk, hne]
      · simp [alSet, alLookup, hk, h2, ih]

theorem alLookup_eq_none_iff (m : List (Nat × α)) (k : Nat) :
    alLookup m k = none ↔ k ∉ m.map Prod.fst := by
  induction m with
  | nil => simp [alLookup]
  | cons e rest ih =>
    obtain ⟨ke, ve⟩ := e
    by_cases h : k = ke <;> simp [alLookup, h, ih]

theorem alLookup_isSome_iff (m : List (Nat × α)) (k : Nat) :
    (alLookup m k).isSome ↔ k ∈ m.map Prod.fst := by
  rw [Option.isSome_iff_ne_none, Ne, alLookup_eq_none_iff, not_not]

theorem alSet_of_lookup_none (m : List (Nat × α)) (k : Nat) (v : α)
    (h : alLookup m k = none) : alSet m k v = m ++ [(k, v)] := by
  induction m with
  | nil => simp [alSet]
  | cons e rest ih =>
    obtain ⟨ke, ve⟩ := e
    by_cases hk : k = ke
    · subst hk; simp [alLookup] at h
    · simp [alLookup, hk] at h
      simp [alSet, hk, ih h]

theorem alSet_same (m : List (Nat × α)) (k : Nat) (v : α)
    (h : alLookup m k = some v) : alSet m k v = m := by
  induction m with
  | nil => simp [alLookup] at h
  | cons e rest ih =>
    obtain ⟨ke, ve⟩ := e
    by_cases hk : k = ke
    · subst hk
      simp [alLookup] at h
      simp [alSet, h]
    · simp [alLookup, hk] at h
      simp [alSet, hk, ih h]

theorem keys_alSet_present (m : List (Nat × α)) (k : Nat) (v : α)
    (h : (alLookup m k).isSome) :
    (alSet m k v).map Prod.fst = m.map Prod.fst := by
  induction m with
  | nil => simp [alLookup] at h
  | cons e rest ih =>
    obtain ⟨ke, ve⟩ := e
    by_cases hk : k = ke
    · subst hk; simp [alSet]
    · simp [alLookup, hk] at h
      simp [alSet, hk, ih h]

theorem nodup_keys_alSet (m : List (Nat × α)) (k : Nat) (v : α)
    (h : (m.map Prod.fst).Nodup) : ((alSet m k v).map Prod.fst).Nodup := by
  cases hl : alLookup m k with
  | none =>
    rw [alSet_of_lookup_none m k v hl, List.map_append]
    have hk : k ∉ m.map Prod.fst := (alLookup_eq_none_iff m k).1 hl
    rw [List.nodup_append]
    refine ⟨h, by simp, ?_⟩
    intro x hx hx2
    simp only [List.map_cons, List.map_nil, List.mem_singleton] at hx2
    subst hx2
    exact hk hx
  | some w =>
    rw [keys_alSet_present m k v (by simp [hl])]
    exact h

end AssocLemmas

theorem tadd_apply (t : GenicRegion → Nat) (r : GenicRegion) (k : Nat)
    (r2 : GenicRegion) : tadd t r k r2 = if r2 = r then t r + k else t r2 := by
  simp [tadd, tset]

theorem fold_bump_apply (L : List GenicRegion) (cond : GenicRegion → Bool)
    (k : Nat) (t : GenicRegion → Nat) (r : GenicRegion) (hN : L.Nodup) :
    (L.foldl (fun t2 r2 => if cond r2 then tadd t2 r2 k else t2) t) r =
      t r + (if r ∈ L ∧ cond r then k else 0) := by
  induction L generalizing t with
  | nil => simp
  | cons a L ih =>
    obtain ⟨haL, hNa⟩ := List.nodup_cons.1 hN
    simp only [List.foldl_cons]
    by_cases hc : cond a
    · rw [if_pos hc, ih _ hNa]
      by_cases hr : r = a
      · subst hr; simp [tadd_apply, haL, hc]
      · have hta : tadd t a k r = t r := by simp [tadd_apply, hr]
        rw [hta]
        by_cases hrL : r ∈ L <;> simp [hrL, hr, hc]
    · rw [if_neg hc, ih _ hNa]
      by_cases hr : r = a
      · subst hr; simp [hc]
      · by_cases hrL : r ∈ L <;> simp [hrL, hr]

theorem genic_region_list_nodup : genic_region_list.Nodup := by decide

theorem mem_genic_region_list (r : GenicRegion) : r ∈ genic_region_list := by
  cases r <;> decide

theorem bump_region_var_apply (D : AnnoDecoder) (av k : Nat)
    (t : GenicRegion → Nat) (r : GenicRegion) :
    bump_region_var D av k t r = t r + k * memb D av r := by
  unfold bump_region_var
  rw [fold_bump_apply _ _ _ _ _ genic_region_list_nodup]
  by_cases h : D.parse_anno_val av r <;>
    simp [mem_genic_region_list, memb, h]

theorem bump_repr_var_apply (D : AnnoDecoder) (av k : Nat)
    (t : GenicRegion → Nat) (r : GenicRegion) :
    bump_repr_var D av k t r = t r + k * repr_memb D av r := by
  unfold bump_repr_var repr_memb
  by_cases hm : (D.get_repr_anno av).1
  · simp only [hm, if_pos]
    by_cases h5 : r = GenicRegion.UTR5
    · subst h5; simp [tadd_apply]
    · by_cases h3 : r = GenicRegion.UTR3
      · subst h3; simp [tadd_apply]
      · simp [tadd_apply, h5, h3]
  · simp only [hm]
    by_cases hr : r = (D.get_repr_anno av).2
    · simp [tadd_apply, hr]
    · simp [tadd_apply, hr]

theorem rescan_with_congr (w : Nat → GenicRegion → Nat)
    (cnt anno anno2 : List (Nat × Nat)) (r : GenicRegion)
    (h : ∀ k ∈ cnt.map Prod.fst, alLookup anno2 k = alLookup anno k) :
    rescan_with w cnt anno2 r = rescan_with w cnt anno r := by
  unfold rescan_with
  congr 1
  apply List.map_congr_left
  intro e he
  have : alLookup anno2 e.1 = alLookup anno e.1 :=
    h e.1 (List.mem_map_of_mem Prod.fst he)
  simp [wlook, this]

theorem rescan_append_fresh (w : Nat → GenicRegion → Nat)
    (cnt anno : List (Nat × Nat)) (k c av : Nat) (r : GenicRegion)
    (hk : alLookup cnt k = none) :
    rescan_with w (cnt ++ [(k, c)]) (alSet anno k av) r =
      rescan_with w cnt anno r + c * w av r := by
  have hkm : k ∉ cnt.map Prod.fst := (alLookup_eq_none_iff cnt k).1 hk
  unfold rescan_with
  rw [List.map_append, List.sum_append]
  have h1 : (cnt.map fun e => e.2 * wlook w (alSet anno k av) e.1 r) =
      cnt.map fun e => e.2 * wlook w anno e.1 r := by
    apply List.map_congr_left
    intro e he
    have hne : e.1 ≠ k := by
      intro h; exact hkm (h ▸ List.mem_map_of_mem Prod.fst he)
    simp [wlook, alLookup_alSet, hne]
  rw [h1]
  simp [wlook, alLookup_alSet]

theorem rescan_update (w : Nat → GenicRegion → Nat)
    (cnt anno : List (Nat × Nat)) (k c n : Nat) (r : GenicRegion)
    (hN : (cnt.map Prod.fst).Nodup) (hk : alLookup cnt k = some c) :
    rescan_with w (alSet cnt k (c + n)) anno r =
      rescan_with w cnt anno r + n * wlook w anno k r := by
  induction cnt with
  | nil => simp [alLookup] at hk
  | cons e rest ih =>
    obtain ⟨ke, ve⟩ := e
    rw [List.map_cons, List.nodup_cons] at hN
    obtain ⟨hkem, hNr⟩ := hN
    by_cases hke : k = ke
    · subst hke
      have hvc : ve = c := by simpa [alLookup] using hk
      subst hvc
      have hset : alSet ((k, ve) :: rest) k (ve + n) = (k, ve + n) :: rest := by
        simp [alSet]
      rw [hset]
      unfold rescan_with
      simp only [List.map_cons, List.sum_cons]
      ring
    · have hk2 : alLookup rest k = some c := by simpa [alLookup, hke] using hk
      have hset : alSet ((ke, ve) :: rest) k (c + n) =
          (ke, ve) :: alSet rest k (c + n) := by
        simp [alSet, hke]
      rw [hset]
      unfold rescan_with at ih ⊢
      simp only [List.map_cons, List.sum_cons]
      rw [ih hNr hk2]
      ring


theorem foldl_bind_none {α β : Type} (f : α → β → Option β) (l : List α) :
    l.foldl (fun o k => o.bind (fun s => f k s)) (none : Option β) = none := by
  induction l with
  | nil => rfl
  | cons a l ih => simpa using ih

theorem foldl_bump_region_apply (D : AnnoDecoder) (l : List Nat)
    (t : GenicRegion → Nat) (r : GenicRegion) :
    (l.foldl (fun t2 av => bump_region_var D av 1 t2) t) r =
      t r + size_rescan D l r := by
  induction l generalizing t with
  | nil => simp [size_rescan]
  | cons a l ih =>
    simp only [List.foldl_cons]
    rw [ih, bump_region_var_apply]
    simp only [size_rescan, List.map_cons, List.sum_cons]
    ring

theorem foldl_bump_repr_apply (D : AnnoDecoder) (l : List Nat)
    (t : GenicRegion → Nat) (r : GenicRegion) :
    (l.foldl (fun t2 av => bump_repr_var D av 1 t2) t) r =
      t r + repr_size_rescan D l r := by
  induction l generalizing t with
  | nil => simp [repr_size_rescan]
  | cons a l ih =>
    simp only [List.foldl_cons]
    rw [ih, bump_repr_var_apply]
    simp only [repr_size_rescan, List.map_cons, List.sum_cons]
    ring

namespace VarPeak

theorem gba_mk0_inv (D : AnnoDecoder) (c : String) (a b : Nat) (s : String)
    (l : List Nat) (q : VarPeak)
    (h : (mk0 c a b s).gene_based_anno D l = some q) :
    FullInv D q ∧ q.chrom = c ∧ q.start = a ∧ q.end_ = b ∧ q.strand = s ∧
    q.anno_vals = l ∧ q.var_pos_to_cnt = [] ∧ q.var_pos_to_anno_val = [] ∧
    q.var_pos_to_genes = [] := by
  unfold gene_based_anno at h
  split at h
  case isFalse => exact absurd h (by simp)
  case isTrue hlen =>
    obtain rfl : _ = q := Option.some.inj h
    refine ⟨⟨?_, ?_, ?_, ?_, ?_, ?_⟩, rfl, rfl, rfl, rfl, rfl, rfl, rfl, rfl⟩
    · exact ⟨List.nodup_nil, List.nodup_nil, List.nodup_nil⟩
    · intro k; simp [mk0, alLookup]
    · intro k hk; simp [mk0, alLookup] at hk
    · intro r
      constructor <;> simp [mk0, rescan_with]
    · intro r
      constructor
      · simpa [mk0] using
          foldl_bump_region_apply D l (mk0 c a b s).genic_region_to_size r
      · simpa [mk0] using
          foldl_bump_repr_apply D l (mk0 c a b s).repr_genic_region_to_size r
    · right
      simpa [mk0, get_size] using hlen

theorem avRes_eq (p : VarPeak) (v : VCFData) (av : Nat) (h : avRes p v = some av) :
    (alLookup p.var_pos_to_anno_val v.pos = none ∧ av = v.get_anno_val p.strand) ∨
    alLookup p.var_pos_to_anno_val v.pos = some av := by
  unfold avRes at h
  cases ha : alLookup p.var_pos_to_anno_val v.pos with
  | none =>
    rw [ha] at h
    exact Or.inl ⟨rfl, (Option.some.inj h).symm⟩
  | some a =>
    simp only [ha] at h
    by_cases he : a = v.get_anno_val p.strand
    · rw [if_pos he] at h
      exact Or.inr (congrArg some (Option.some.inj h))
    · rw [if_neg he] at h
      exact absurd h (by simp)

theorem genesRes_eq (p : VarPeak) (v : VCFData) (gs : Nat)
    (h : genesRes p v = some gs) :
    (alLookup p.var_pos_to_genes v.pos = none ∧ gs = v.get_assoc_genes p.strand) ∨
    alLookup p.var_pos_to_genes v.pos = some gs := by
  unfold genesRes at h
  cases ha : alLookup p.var_pos_to_genes v.pos with
  | none =>
    rw [ha] at h
    exact Or.inl ⟨rfl, (Option.some.inj h).symm⟩
  | some g =>
    simp only [ha] at h
    by_cases he : g = v.get_assoc_genes p.strand
    · rw [if_pos he] at h
      exact Or.inr (congrArg some (Option.some.inj h))
    · rw [if_neg he] at h
      exact absurd h (by simp)

end VarPeak

namespace VarPeak

theorem inv_insert_fresh (D : AnnoDecoder) (p : VarPeak) (pos c2 av gs : Nat)
    (hInv : FullInv D p) (hr : p.start ≤ pos ∧ pos < p.end_)
    (hc : alLookup p.var_pos_to_cnt pos = none) :
    FullInv D { p with
      var_pos_to_cnt := alSet p.var_pos_to_cnt pos c2
      var_pos_to_anno_val := alSet p.var_pos_to_anno_val pos av
      var_pos_to_genes := alSet p.var_pos_to_genes pos gs
      genic_region_to_var_cnt := bump_region_var D av c2 p.genic_region_to_var_cnt
      repr_genic_region_to_var_cnt :=
        bump_repr_var D av c2 p.repr_genic_region_to_var_cnt } := by
  obtain ⟨⟨hN1, hN2, hN3⟩, hKC, hKR, hAgg, hSz, hAL⟩ := hInv
  have hanno : alLookup p.var_pos_to_anno_val pos = none := by
    have := (hKC pos).1
    rw [hc] at this
    simpa using (Option.not_isSome_iff_eq_none.1 (by simpa using this.symm.1))
  refine ⟨⟨?_, ?_, ?_⟩, ?_, ?_, ?_, hSz, hAL⟩
  · exact nodup_keys_alSet _ _ _ hN1
  · exact nodup_keys_alSet _ _ _ hN2
  · exact nodup_keys_alSet _ _ _ hN3
  · intro k
    by_cases hk : k = pos
    · subst hk
      simp [alLookup_alSet]
    · simpa [alLookup_alSet, hk] using hKC k
  · intro k hk
    by_cases hkp : k = pos
    · subst hkp; exact hr
    · refine hKR k ?_
      simpa [alLookup_alSet, hkp] using hk
  · intro r
    have h1 := rescan_append_fresh (memb D) p.var_pos_to_cnt p.var_pos_to_anno_val
      pos c2 av r hc
    have h2 := rescan_append_fresh (repr_memb D) p.var_pos_to_cnt p.var_pos_to_anno_val
      pos c2 av r hc
    rw [← alSet_of_lookup_none _ _ c2 hc] at h1 h2
    constructor
    · show bump_region_var D av c2 p.genic_region_to_var_cnt r = _
      rw [bump_region_var_apply, h1, (hAgg r).1]
    · show bump_repr_var D av c2 p.repr_genic_region_to_var_cnt r = _
      rw [bump_repr_var_apply, h2, (hAgg r).2]

theorem inv_update_present (D : AnnoDecoder) (p : VarPeak) (pos c0 n av : Nat)
    (hInv : FullInv D p)
    (hc : alLookup p.var_pos_to_cnt pos = some c0)
    (ha : alLookup p.var_pos_to_anno_val pos = some av) :
    FullInv D { p with
      var_pos_to_cnt := alSet p.var_pos_to_cnt pos (c0 + n)
      genic_region_to_var_cnt := bump_region_var D av n p.genic_region_to_var_cnt
      repr_genic_region_to_var_cnt :=
        bump_repr_var D av n p.repr_genic_region_to_var_cnt } := by
  obtain ⟨⟨hN1, hN2, hN3⟩, hKC, hKR, hAgg, hSz, hAL⟩ := hInv
  refine ⟨⟨?_, hN2, hN3⟩, ?_, ?_, ?_, hSz, hAL⟩
  · exact nodup_keys_alSet _ _ _ hN1
  · intro k
    by_cases hk : k = pos
    · subst hk
      have hg := (hKC k).2
      rw [hc] at hg
      simp only [alLookup_alSet, if_pos rfl]
      constructor
      · simp [ha]
      · simpa using hg
    · simpa [alLookup_alSet, hk] using hKC k
  · intro k hk
    by_cases hkp : k = pos
    · subst hkp
      exact hKR k (by simp [hc])
    · refine hKR k ?_
      simpa [alLookup_alSet, hkp] using hk
  · intro r
    have h1 := rescan_update (memb D) p.var_pos_to_cnt p.var_pos_to_anno_val
      pos c0 n r hN1 hc
    have h2 := rescan_update (repr_memb D) p.var_pos_to_cnt p.var_pos_to_anno_val
      pos c0 n r hN1 hc
    constructor
    · show bump_region_var D av n p.genic_region_to_var_cnt r = _
      rw [bump_region_var_apply, h1, (hAgg r).1, wlook, ha]
    · show bump_repr_var D av n p.repr_genic_region_to_var_cnt r = _
      rw [bump_repr_var_apply, h2, (hAgg r).2, wlook, ha]

end VarPeak

namespace VarPeak

theorem put_variant_eq (D : AnnoDecoder) (p : VarPeak) (v : VCFData) (q : VarPeak)
    (h : p.put_variant D v = some q) :
    ∃ av gs, avRes p v = some av ∧ genesRes p v = some gs ∧
      (p.start ≤ v.pos ∧ v.pos < p.end_) ∧
      q = { p with
        var_pos_to_cnt :=
          match alLookup p.var_pos_to_cnt v.pos with
          | none => alSet p.var_pos_to_cnt v.pos 1
          | some c => alSet p.var_pos_to_cnt v.pos (c + 1)
        var_pos_to_anno_val := alSet p.var_pos_to_anno_val v.pos av
        var_pos_to_genes := alSet p.var_pos_to_genes v.pos gs
        genic_region_to_var_cnt := bump_region_var D av 1 p.genic_region_to_var_cnt
        repr_genic_region_to_var_cnt :=
          bump_repr_var D av 1 p.repr_genic_region_to_var_cnt } := by
  unfold put_variant at h
  split at h
  case isFalse => exact absurd h (by simp)
  case isTrue hrange =>
    cases hav : avRes p v with
    | none => rw [hav] at h; exact absurd h (by simp)
    | some av =>
      cases hgs : genesRes p v with
      | none => rw [hav, hgs] at h; exact absurd h (by simp)
      | some gs =>
        rw [hav, hgs] at h
        exact ⟨av, gs, rfl, rfl, hrange, (Option.some.inj h).symm⟩

theorem put_variant_inv (D : AnnoDecoder) (p : VarPeak) (v : VCFData)
    (q : VarPeak) (hInv : FullInv D p) (h : p.put_variant D v = some q) :
    FullInv D q ∧ q.chrom = p.chrom ∧ q.start = p.start ∧ q.end_ = p.end_ ∧
    q.strand = p.strand ∧ q.anno_vals = p.anno_vals ∧
    q.genic_region_to_size = p.genic_region_to_size ∧
    q.repr_genic_region_to_size = p.repr_genic_region_to_size := by
  obtain ⟨av, gs, hav, hgs, hrange, rfl⟩ := put_variant_eq D p v q h
  refine ⟨?_, rfl, rfl, rfl, rfl, rfl, rfl, rfl⟩
  cases hc : alLookup p.var_pos_to_cnt v.pos with
  | none =>
    simp only [hc]
    exact inv_insert_fresh D p v.pos 1 av gs hInv hrange hc
  | some c0 =>
    simp only [hc]
    have ha : alLookup p.var_pos_to_anno_val v.pos = some av := by
      rcases avRes_eq p v av hav with ⟨hn, _⟩ | hsome
      · exact absurd hn (by
          have := (hInv.2.1 v.pos).1
          rw [hc] at this
          intro hcon
          rw [hcon] at this
          simpa using this)
      · exact hsome
    have hg : alLookup p.var_pos_to_genes v.pos = some gs := by
      rcases genesRes_eq p v gs hgs with ⟨hn, _⟩ | hsome
      · exact absurd hn (by
          have := (hInv.2.1 v.pos).2
          rw [hc] at this
          intro hcon
          rw [hcon] at this
          simpa using this)
      · exact hsome
    rw [alSet_same _ _ _ ha, alSet_same _ _ _ hg]
    exact inv_update_present D p v.pos c0 1 av hInv hc ha

end VarPeak

namespace VarPeak

theorem combine_pos_eq (D : AnnoDecoder) (s o : VarPeak) (k : Nat) (q : VarPeak)
    (h : combine_pos D s o k = some q) :
    ∃ c av gs, alLookup o.var_pos_to_cnt k = some c ∧
      alLookup o.var_pos_to_anno_val k = some av ∧
      alLookup o.var_pos_to_genes k = some gs ∧
      ((alLookup s.var_pos_to_cnt k = none ∧
        q = { s with
          var_pos_to_cnt := alSet s.var_pos_to_cnt k c
          var_pos_to_anno_val := alSet s.var_pos_to_anno_val k av
          var_pos_to_genes := alSet s.var_pos_to_genes k gs
          genic_region_to_var_cnt :=
            bump_region_var D av c s.genic_region_to_var_cnt
          repr_genic_region_to_var_cnt :=
            bump_repr_var D av c s.repr_genic_region_to_var_cnt }) ∨
       (∃ c0, alLookup s.var_pos_to_cnt k = some c0 ∧
        alLookup s.var_pos_to_anno_val k = some av ∧
        alLookup s.var_pos_to_genes k = some gs ∧
        q = { s with
          var_pos_to_cnt := alSet s.var_pos_to_cnt k (c0 + c)
          genic_region_to_var_cnt :=
            bump_region_var D av c s.genic_region_to_var_cnt
          repr_genic_region_to_var_cnt :=
            bump_repr_var D av c s.repr_genic_region_to_var_cnt })) := by
  unfold combine_pos get_var_cnt_in_pos get_anno_val_in_pos get_genes_in_pos at h
  cases hoc : alLookup o.var_pos_to_cnt k with
  | none => rw [hoc] at h; exact absurd h (by simp)
  | some c =>
    cases hoa : alLookup o.var_pos_to_anno_val k with
    | none => rw [hoc, hoa] at h; exact absurd h (by simp)
    | some av =>
      cases hog : alLookup o.var_pos_to_genes k with
      | none => rw [hoc, hoa, hog] at h; exact absurd h (by simp)
      | some gs =>
        rw [hoc, hoa, hog] at h
        refine ⟨c, av, gs, rfl, rfl, rfl, ?_⟩
        cases hsc : alLookup s.var_pos_to_cnt k with
        | none =>
          simp only [hsc] at h
          exact Or.inl ⟨rfl, (Option.some.inj h).symm⟩
        | some c0 =>
          simp only [hsc] at h
          by_cases hok : alLookup s.var_pos_to_anno_val k = some av ∧
              alLookup s.var_pos_to_genes k = some gs
          · rw [if_pos hok] at h
            exact Or.inr ⟨c0, rfl, hok.1, hok.2, (Option.some.inj h).symm⟩
          · rw [if_neg hok] at h
            exact absurd h (by simp)

theorem combine_pos_inv (D : AnnoDecoder) (s o : VarPeak) (k : Nat) (q : VarPeak)
    (hInv : FullInv D s) (hr : s.start ≤ k ∧ k < s.end_)
    (h : combine_pos D s o k = some q) :
    FullInv D q ∧ q.chrom = s.chrom ∧ q.start = s.start ∧ q.end_ = s.end_ ∧
    q.strand = s.strand ∧ q.anno_vals = s.anno_vals ∧
    q.genic_region_to_size = s.genic_region_to_size ∧
    q.repr_genic_region_to_size = s.repr_genic_region_to_size := by
  obtain ⟨c, av, gs, hoc, hoa, hog, hbr⟩ := combine_pos_eq D s o k q h
  rcases hbr with ⟨hsc, rfl⟩ | ⟨c0, hsc, hsa, hsg, rfl⟩
  · exact ⟨inv_insert_fresh D s k c av gs hInv hr hsc,
      rfl, rfl, rfl, rfl, rfl, rfl, rfl⟩
  · exact ⟨inv_update_present D s k c0 c av hInv hsc hsa,
      rfl, rfl, rfl, rfl, rfl, rfl, rfl⟩

theorem combine_fold_inv (D : AnnoDecoder) (o : VarPeak) (l : List Nat)
    (hl : ∀ k ∈ l, o.start ≤ k ∧ k < o.end_) :
    ∀ s q, FullInv D s → s.start = o.start → s.end_ = o.end_ →
    l.foldl (fun acc k2 => acc.bind (fun s2 => combine_pos D s2 o k2))
      (some s) = some q →
    FullInv D q ∧ q.chrom = s.chrom ∧ q.start = s.start ∧ q.end_ = s.end_ ∧
    q.strand = s.strand ∧ q.anno_vals = s.anno_vals ∧
    q.genic_region_to_size = s.genic_region_to_size ∧
    q.repr_genic_region_to_size = s.repr_genic_region_to_size := by
  induction l with
  | nil =>
    intro s q hInv h1 h2 hf
    simp only [List.foldl_nil] at hf
    obtain rfl : s = q := Option.some.inj hf
    exact ⟨hInv, rfl, rfl, rfl, rfl, rfl, rfl, rfl⟩
  | cons a l ih =>
    intro s q hInv h1 h2 hf
    simp only [List.foldl_cons] at hf
    have hf2 : l.foldl (fun acc k2 => acc.bind (fun s2 => combine_pos D s2 o k2))
        (combine_pos D s o a) = some q := hf
    cases hstep : combine_pos D s o a with
    | none =>
      rw [hstep] at hf2
      exact absurd (hf2.symm.trans (foldl_bind_none _ l)) (by simp)
    | some s1 =>
      rw [hstep] at hf2
      have hra : o.start ≤ a ∧ a < o.end_ := hl a (by simp)
      have hstep2 := combine_pos_inv D s o a s1 hInv
        (by rw [h1, h2]; exact hra) hstep
      have hrest := ih (fun k hk => hl k (by simp [hk])) s1 q hstep2.1
        (hstep2.2.2.1.trans h1) (hstep2.2.2.2.1.trans h2) hf2
      refine ⟨hrest.1, ?_, ?_, ?_, ?_, ?_, ?_, ?_⟩
      · exact hrest.2.1.trans hstep2.2.1
      · exact hrest.2.2.1.trans hstep2.2.2.1
      · exact hrest.2.2.2.1.trans hstep2.2.2.2.1
      · exact hrest.2.2.2.2.1.trans hstep2.2.2.2.2.1
      · exact hrest.2.2.2.2.2.1.trans hstep2.2.2.2.2.2.1
      · exact hrest.2.2.2.2.2.2.1.trans hstep2.2.2.2.2.2.2.1
      · exact hrest.2.2.2.2.2.2.2.trans hstep2.2.2.2.2.2.2.2

theorem combine_inv (D : AnnoDecoder) (s o q : VarPeak)
    (hs : FullInv D s) (ho : FullInv D o) (h : s.combine D o = some q) :
    FullInv D q ∧ q.chrom = s.chrom ∧ q.start = s.start ∧ q.end_ = s.end_ ∧
    q.strand = s.strand ∧ q.anno_vals = s.anno_vals ∧
    q.genic_region_to_size = s.genic_region_to_size ∧
    q.repr_genic_region_to_size = s.repr_genic_region_to_size := by
  unfold combine at h
  split at h
  case isFalse => exact absurd h (by simp)
  case isTrue hint =>
    have hl : ∀ k ∈ o.var_pos_to_cnt.map Prod.fst, o.start ≤ k ∧ k < o.end_ := by
      intro k hk
      exact ho.2.2.1 k ((alLookup_isSome_iff _ _).2 hk)
    exact combine_fold_inv D o _ hl s q hs hint.2.1 hint.2.2.1 h

end VarPeak

namespace VarPeak

theorem scan_positions_eq_filter (l : List Nat) (a b : Nat)
    (hs : l.Sorted (fun x y => x ≤ y)) :
    scan_positions l a b =
      l.filter (fun x => decide (a ≤ x) && decide (x < b)) := by
  induction l with
  | nil => rfl
  | cons x l ih =>
    rw [List.sorted_cons] at hs
    obtain ⟨hx, hl⟩ := hs
    by_cases hxb : x < b
    · by_cases hax : a ≤ x <;>
        simp [scan_positions, List.takeWhile_cons, List.filter_cons, hxb, hax,
          ← ih hl]
    · have hnil : l.filter (fun y => decide (a ≤ y) && decide (y < b)) = [] := by
        refine List.filter_eq_nil_iff.2 ?_
        intro y hy
        have hyb : ¬ y < b := by have := hx y hy; omega
        simp [hyb]
      simp [scan_positions, List.takeWhile_cons, List.filter_cons, hxb, hnil]

theorem get_var_pos_list_sorted (p : VarPeak) :
    p.get_var_pos_list.Sorted (fun x y => x ≤ y) :=
  List.sorted_insertionSort _ _

theorem get_var_pos_list_perm (p : VarPeak) :
    p.get_var_pos_list.Perm (p.var_pos_to_cnt.map Prod.fst) :=
  List.perm_insertionSort _ _

theorem cut_loop_eq_run (D : AnnoDecoder) (source : VarPeak) (a b : Nat)
    (l : List Nat) : ∀ acc,
    cut_loop D source a b acc l = cut_run D source acc (scan_positions l a b) := by
  induction l with
  | nil => intro acc; rfl
  | cons x l ih =>
    intro acc
    by_cases hin : a ≤ x ∧ x < b
    · have hsc : scan_positions (x :: l) a b = x :: scan_positions l a b := by
        simp [scan_positions, List.takeWhile_cons, hin.1, hin.2]
      rw [hsc]
      cases hcp : cut_put D source acc x with
      | none =>
        simp only [cut_loop, if_pos hin, hcp]
        unfold cut_run
        rw [List.foldl_cons, Option.some_bind, hcp]
        exact (foldl_bind_none (fun k s => cut_put D source s k) _).symm
      | some acc2 =>
        simp only [cut_loop, if_pos hin, hcp]
        rw [ih acc2]
        unfold cut_run
        rw [List.foldl_cons, Option.some_bind, hcp]
    · by_cases hxb : b ≤ x
      · have hsc : scan_positions (x :: l) a b = [] := by
          have hnb : ¬ x < b := by omega
          simp [scan_positions, List.takeWhile_cons, hnb]
        rw [hsc]
        simp only [cut_loop, if_neg hin, if_pos hxb]
        rfl
      · have hxb2 : x < b := by omega
        have hax : ¬ a ≤ x := by
          intro hax2
          exact hin ⟨hax2, hxb2⟩
        have hsc : scan_positions (x :: l) a b = scan_positions l a b := by
          simp [scan_positions, List.takeWhile_cons, List.filter_cons, hxb2, hax]
        rw [hsc]
        simp only [cut_loop, if_neg hin, if_neg hxb]
        exact ih acc

theorem cut_put_eq (D : AnnoDecoder) (source acc : VarPeak) (k : Nat)
    (q : VarPeak) (h : cut_put D source acc k = some q) :
    ∃ c av gs, alLookup source.var_pos_to_cnt k = some c ∧
      alLookup source.var_pos_to_anno_val k = some av ∧
      alLookup source.var_pos_to_genes k = some gs ∧
      q = { acc with
        var_pos_to_cnt := alSet acc.var_pos_to_cnt k c
        var_pos_to_anno_val := alSet acc.var_pos_to_anno_val k av
        var_pos_to_genes := alSet acc.var_pos_to_genes k gs
        genic_region_to_var_cnt :=
          bump_region_var D av c acc.genic_region_to_var_cnt
        repr_genic_region_to_var_cnt :=
          bump_repr_var D av c acc.repr_genic_region_to_var_cnt } := by
  unfold cut_put at h
  cases hc : alLookup source.var_pos_to_cnt k with
  | none => rw [hc] at h; exact absurd h (by simp)
  | some c =>
    cases ha : alLookup source.var_pos_to_anno_val k with
    | none => rw [hc, ha] at h; exact absurd h (by simp)
    | some av =>
      cases hg : alLookup source.var_pos_to_genes k with
      | none => rw [hc, ha, hg] at h; exact absurd h (by simp)
      | some gs =>
        rw [hc, ha, hg] at h
        exact ⟨c, av, gs, rfl, rfl, rfl, (Option.some.inj h).symm⟩

theorem cut_run_inv (D : AnnoDecoder) (source : VarPeak) :
    ∀ (l : List Nat) (acc q : VarPeak), FullInv D acc →
    (∀ k ∈ l, acc.start ≤ k ∧ k < acc.end_) → l.Nodup →
    (∀ k ∈ l, alLookup acc.var_pos_to_cnt k = none) →
    cut_run D source acc l = some q →
    FullInv D q ∧ q.chrom = acc.chrom ∧ q.start = acc.start ∧
    q.end_ = acc.end_ ∧ q.strand = acc.strand ∧ q.anno_vals = acc.anno_vals ∧
    q.genic_region_to_size = acc.genic_region_to_size ∧
    q.repr_genic_region_to_size = acc.repr_genic_region_to_size := by
  intro l
  induction l with
  | nil =>
    intro acc q hInv _ _ _ hf
    obtain rfl : acc = q := Option.some.inj hf
    exact ⟨hInv, rfl, rfl, rfl, rfl, rfl, rfl, rfl⟩
  | cons x l ih =>
    intro acc q hInv hl hN hfresh hf
    obtain ⟨hxl, hNl⟩ := List.nodup_cons.1 hN
    have hf2 : l.foldl (fun o var_pos => o.bind (fun a2 => cut_put D source a2 var_pos))
        (cut_put D source acc x) = some q := hf
    cases hcp : cut_put D source acc x with
    | none =>
      rw [hcp] at hf2
      exact absurd (hf2.symm.trans (foldl_bind_none _ l)) (by simp)
    | some acc2 =>
      rw [hcp] at hf2
      obtain ⟨c, av, gs, hc2, ha2, hg2, rfl⟩ := cut_put_eq D source acc x acc2 hcp
      have hInv2 := inv_insert_fresh D acc x c av gs hInv (hl x (by simp))
        (hfresh x (by simp))
      have hrest := ih _ q hInv2
        (fun k hk => hl k (by simp [hk]))
        hNl
        (fun k hk => by
          have hne : k ≠ x := fun he => hxl (he ▸ hk)
          show alLookup (alSet acc.var_pos_to_cnt x c) k = none
          rw [alLookup_alSet]
          simp only [if_neg hne]
          exact hfresh k (by simp [hk]))
        hf2
      exact hrest

theorem mk0_inv (D : AnnoDecoder) (c : String) (a b : Nat) (s : String) :
    FullInv D (mk0 c a b s) := by
  refine ⟨⟨List.nodup_nil, List.nodup_nil, List.nodup_nil⟩, ?_, ?_, ?_, ?_, ?_⟩
  · intro k; simp [mk0, alLookup]
  · intro k hk; simp [mk0, alLookup] at hk
  · intro r; constructor <;> simp [mk0, rescan_with]
  · intro r; constructor <;>
      simp [mk0, size_rescan, repr_size_rescan]
  · left; rfl

theorem cut_inv (D : AnnoDecoder) (p : VarPeak) (a b : Nat) (q : VarPeak)
    (hInv : FullInv D p) (h : p.cut D a b = some q) :
    FullInv D q ∧ q.chrom = p.chrom ∧ q.start = a ∧ q.end_ = b ∧
    q.strand = p.strand := by
  unfold cut at h
  split at h
  case isFalse => exact absurd h (by simp)
  case isTrue hb =>
    cases hgba : (mk0 p.chrom a b p.strand).gene_based_anno D
        ((p.anno_vals.drop (a - p.start)).take ((b - p.start) - (a - p.start))) with
    | none => simp only [hgba] at h; exact absurd h (by simp)
    | some cut_peak =>
      simp only [hgba] at h
      obtain ⟨hInvC, hcc, hcs, hce, hcst, _, hcnt0, _, _⟩ :=
        gba_mk0_inv D p.chrom a b p.strand _ cut_peak hgba
      rw [cut_loop_eq_run] at h
      have hscan : scan_positions p.get_var_pos_list a b =
          p.get_var_pos_list.filter (fun x => decide (a ≤ x) && decide (x < b)) :=
        scan_positions_eq_filter _ a b (get_var_pos_list_sorted p)
      have hNl : (scan_positions p.get_var_pos_list a b).Nodup := by
        rw [hscan]
        exact ((get_var_pos_list_perm p).nodup_iff.2 hInv.1.1).filter _
      have hran : ∀ k ∈ scan_positions p.get_var_pos_list a b,
          cut_peak.start ≤ k ∧ k < cut_peak.end_ := by
        intro k hk
        rw [hscan] at hk
        have := List.of_mem_filter hk
        rw [hcs, hce]
        simp at this
        omega
      have hfr : ∀ k ∈ scan_positions p.get_var_pos_list a b,
          alLookup cut_peak.var_pos_to_cnt k = none := by
        intro k _
        rw [hcnt0]
        rfl
      have hrun := cut_run_inv D p _ cut_peak q hInvC hran hNl hfr h
      exact ⟨hrun.1, hrun.2.1.trans hcc, hrun.2.2.1.trans hcs,
        hrun.2.2.2.1.trans hce, hrun.2.2.2.2.1.trans hcst⟩

theorem reachable_inv (D : AnnoDecoder) (p : VarPeak) (h : Reachable D p) :
    FullInv D p := by
  induction h with
  | fresh c a b s => exact mk0_inv D c a b s
  | anno c a b s l q hq => exact (gba_mk0_inv D c a b s l q hq).1
  | put p v q _ hq ih => exact (put_variant_inv D p v q ih hq).1
  | comb p o q _ _ hq ihp iho => exact (combine_inv D p o q ihp iho hq).1
  | cutStep p a b q _ hq ih => exact (cut_inv D p a b q ih hq).1

end VarPeak

theorem pEx_reachable : VarPeak.Reachable Dex pEx :=
  VarPeak.Reachable.put pExA vEx pEx
    (VarPeak.Reachable.anno "chr1" 0 2 "+" [32, 32] pExA rfl) rfl

/-- C1: for an AnnotatedVariantPeak built by one gene_based_annotation call
followed by any successful sequence of put_variant, combine and cut calls, the
tables genic_region_to_var_cnt and repr_genic_region_to_var_cnt are at all
times exactly what a fresh re-scan of var_pos_to_cnt and var_pos_to_anno_val
would produce: for every genic region r, the raw table at r equals the sum
over recorded positions of the recorded count times the 0/1 membership of r in
the decoded annotation value, and likewise for the representative table with
the representative weight. -/
theorem c1_aggregate_rescan_invariant (D : AnnoDecoder) (p : VarPeak)
    (h : VarPeak.Reachable D p) :
    ∀ r : GenicRegion,
      p.genic_region_to_var_cnt r =
        rescan_with (memb D) p.var_pos_to_cnt p.var_pos_to_anno_val r ∧
      p.repr_genic_region_to_var_cnt r =
        rescan_with (repr_memb D) p.var_pos_to_cnt p.var_pos_to_anno_val r :=
  fun r => (VarPeak.reachable_inv D p h).2.2.2.1 r

theorem c1_witness :
    pEx.genic_region_to_var_cnt GenicRegion.ORF =
      rescan_with (memb Dex) pEx.var_pos_to_cnt pEx.var_pos_to_anno_val
        GenicRegion.ORF ∧
    pEx.repr_genic_region_to_var_cnt GenicRegion.ORF =
      rescan_with (repr_memb Dex) pEx.var_pos_to_cnt pEx.var_pos_to_anno_val
        GenicRegion.ORF :=
  c1_aggregate_rescan_invariant Dex pEx pEx_reachable GenicRegion.ORF

/-- C5: for every AnnotatedVariantPeak reachable by any sequence of
gene_based_annotation, put_variant, combine and cut calls satisfying their
preconditions, every key present in any of var_pos_to_cnt, var_pos_to_anno_val
or var_pos_to_genes is present in all three maps, and every such key lies in
the half-open peak interval. -/
theorem c5_three_map_consistency (D : AnnoDecoder) (p : VarPeak)
    (h : VarPeak.Reachable D p) :
    ∀ k, ((alLookup p.var_pos_to_cnt k).isSome ↔
            (alLookup p.var_pos_to_anno_val k).isSome) ∧
         ((alLookup p.var_pos_to_cnt k).isSome ↔
            (alLookup p.var_pos_to_genes k).isSome) ∧
         ((alLookup p.var_pos_to_cnt k).isSome → p.start ≤ k ∧ k < p.end_) := by
  intro k
  have hi := VarPeak.reachable_inv D p h
  exact ⟨(hi.2.1 k).1, (hi.2.1 k).2, fun hk => hi.2.2.1 k hk⟩

theorem c5_witness :
    ((alLookup pEx.var_pos_to_cnt 1).isSome ↔
       (alLookup pEx.var_pos_to_anno_val 1).isSome) ∧
    ((alLookup pEx.var_pos_to_cnt 1).isSome ↔
       (alLookup pEx.var_pos_to_genes 1).isSome) ∧
    ((alLookup pEx.var_pos_to_cnt 1).isSome → pEx.start ≤ 1 ∧ 1 < pEx.end_) :=
  c5_three_map_consistency Dex pEx pEx_reachable 1

/-- C9: for every peak, cut fails (returns none, embedding the failed assert)
whenever the requested start equals the requested end, and whenever the
requested end exceeds the peak end. -/
theorem c9_cut_boundary (D : AnnoDecoder) (p : VarPeak) (a b : Nat) :
    p.cut D a a = none ∧ (p.end_ < b → p.cut D a b = none) := by
  constructor
  · unfold VarPeak.cut
    rw [if_neg]
    omega
  · intro hb
    unfold VarPeak.cut
    rw [if_neg]
    omega

theorem c9_witness : pEx.cut Dex 1 1 = none ∧ pEx.cut Dex 0 3 = none :=
  ⟨(c9_cut_boundary Dex pEx 1 3).1, (c9_cut_boundary Dex pEx 0 3).2 (by decide)⟩

/-- C8: the early-exit scan of the cut loop over the sorted list of recorded
positions copies exactly the positions a naive full filter of the sorted list
would keep (every recorded position inside the requested interval), and the
cut loop itself equals the straight-line fold over that filtered list; no
in-range position is lost to the early exit. -/
theorem c8_scan_equals_filter (D : AnnoDecoder) (p : VarPeak) (a b : Nat)
    (acc : VarPeak) :
    VarPeak.scan_positions p.get_var_pos_list a b =
      p.get_var_pos_list.filter (fun x => decide (a ≤ x) && decide (x < b)) ∧
    VarPeak.cut_loop D p a b acc p.get_var_pos_list =
      VarPeak.cut_run D p acc
        (p.get_var_pos_list.filter (fun x => decide (a ≤ x) && decide (x < b))) := by
  have h1 := VarPeak.scan_positions_eq_filter p.get_var_pos_list a b
    (VarPeak.get_var_pos_list_sorted p)
  refine ⟨h1, ?_⟩
  rw [VarPeak.cut_loop_eq_run, h1]

theorem sum_map_add {α : Type} (L : List α) (f g : α → Nat) :
    (L.map (fun x => f x + g x)).sum = (L.map f).sum + (L.map g).sum := by
  induction L with
  | nil => simp
  | cons a L ih => simp [ih]; omega

theorem sum_map_comm (R : List GenicRegion) (L : List Nat)
    (f : Nat → GenicRegion → Nat) :
    (R.map (fun r => (L.map (fun x => f x r)).sum)).sum =
      (L.map (fun x => (R.map (f x)).sum)).sum := by
  induction L with
  | nil => simp
  | cons a L ih =>
    simp only [List.map_cons, List.sum_cons]
    rw [← ih, ← sum_map_add]

theorem repr_memb_sum (D : AnnoDecoder) (av : Nat) :
    (genic_region_list.map (fun r => repr_memb D av r)).sum =
      1 + (if (D.get_repr_anno av).1 then 1 else 0) := by
  by_cases hm : (D.get_repr_anno av).1
  · simp [genic_region_list, repr_memb, hm]
  · cases h2 : (D.get_repr_anno av).2 <;>
      simp [genic_region_list, repr_memb, hm, h2]

theorem sum_ite_eq_countP (l : List Nat) (p : Nat → Bool) :
    (l.map (fun x => if p x then 1 else 0)).sum = l.countP p := by
  induction l with
  | nil => simp
  | cons a l ih =>
    by_cases h : p a <;> simp [List.countP_cons, h, ih] <;> omega

/-- C10: after a single gene_based_annotation call on a freshly constructed
AnnotatedVariantPeak with a list spanning the interval, the sum of
repr_genic_region_to_size over all genic regions equals the peak span plus the
number of list entries whose representative classification is multi (each
multi-UTR nucleotide contributes 2, every other nucleotide contributes exactly
1). -/
theorem c10_repr_size_sum (D : AnnoDecoder) (c : String) (a b : Nat)
    (s : String) (l : List Nat) (q : VarPeak)
    (h : (VarPeak.mk0 c a b s).gene_based_anno D l = some q) :
    (genic_region_list.map q.repr_genic_region_to_size).sum =
      (b - a) + l.countP (fun av => (D.get_repr_anno av).1) := by
  have hlen : l.length = b - a := by
    unfold VarPeak.gene_based_anno at h
    split at h
    case isFalse => exact absurd h (by simp)
    case isTrue hl => simpa [VarPeak.mk0, VarPeak.get_size] using hl
  obtain ⟨hInv, _, _, _, _, hann, _, _, _⟩ :=
    VarPeak.gba_mk0_inv D c a b s l q h
  have hrepr : ∀ r, q.repr_genic_region_to_size r = repr_size_rescan D l r := by
    intro r
    have := (hInv.2.2.2.2.1 r).2
    rwa [hann] at this
  rw [List.map_congr_left (fun r _ => hrepr r)]
  unfold repr_size_rescan
  rw [sum_map_comm]
  rw [List.map_congr_left (fun av _ => repr_memb_sum D av)]
  rw [sum_map_add]
  have h1 : (l.map (fun _ => 1)).sum = l.length := by
    simpa using sum_ite_eq_countP l (fun _ => true)
  rw [h1, sum_ite_eq_countP, hlen]

theorem c10_witness :
    (genic_region_list.map pExA.repr_genic_region_to_size).sum =
      (2 - 0) + List.countP (fun av => (Dex.get_repr_anno av).1) [32, 32] :=
  c10_repr_size_sum Dex "chr1" 0 2 "+" [32, 32] pExA rfl

/-- C6: a put_variant call whose stored annotation value decodes to a multi
representative classification increases both representative UTR buckets by
exactly 1 and no other bucket; a call whose stored annotation value decodes to
a single representative region increases exactly that one bucket by 1; and
gene_based_annotation applies the same representative increment rule to
repr_genic_region_to_size once per nucleotide of the list. -/
theorem c6_repr_dual_count (D : AnnoDecoder) :
    (∀ (p : VarPeak) (v : VCFData) (q : VarPeak) (av : Nat),
      p.put_variant D v = some q →
      alLookup q.var_pos_to_anno_val v.pos = some av →
      (((D.get_repr_anno av).1 = true →
        q.repr_genic_region_to_var_cnt GenicRegion.UTR5 =
          p.repr_genic_region_to_var_cnt GenicRegion.UTR5 + 1 ∧
        q.repr_genic_region_to_var_cnt GenicRegion.UTR3 =
          p.repr_genic_region_to_var_cnt GenicRegion.UTR3 + 1 ∧
        ∀ r, r ≠ GenicRegion.UTR5 → r ≠ GenicRegion.UTR3 →
          q.repr_genic_region_to_var_cnt r = p.repr_genic_region_to_var_cnt r) ∧
       ((D.get_repr_anno av).1 = false →
        q.repr_genic_region_to_var_cnt (D.get_repr_anno av).2 =
          p.repr_genic_region_to_var_cnt (D.get_repr_anno av).2 + 1 ∧
        ∀ r, r ≠ (D.get_repr_anno av).2 →
          q.repr_genic_region_to_var_cnt r = p.repr_genic_region_to_var_cnt r))) ∧
    (∀ (p : VarPeak) (l : List Nat) (q : VarPeak),
      p.gene_based_anno D l = some q →
      ∀ r, q.repr_genic_region_to_size r =
        p.repr_genic_region_to_size r + repr_size_rescan D l r) := by
  constructor
  · intro p v q av h hlook
    obtain ⟨av0, gs, hav, hgs, hrange, rfl⟩ := VarPeak.put_variant_eq D p v q h
    have hav0 : av0 = av := by
      have : alLookup (alSet p.var_pos_to_anno_val v.pos av0) v.pos = some av :=
        hlook
      rw [alLookup_alSet, if_pos rfl] at this
      exact Option.some.inj this
    subst hav0
    constructor
    · intro hm
      have hb := fun r => bump_repr_var_apply D av0 1
        p.repr_genic_region_to_var_cnt r
      refine ⟨?_, ?_, ?_⟩
      · show bump_repr_var D av0 1 p.repr_genic_region_to_var_cnt
          GenicRegion.UTR5 = _
        rw [hb GenicRegion.UTR5]
        simp [repr_memb, hm]
      · show bump_repr_var D av0 1 p.repr_genic_region_to_var_cnt
          GenicRegion.UTR3 = _
        rw [hb GenicRegion.UTR3]
        simp [repr_memb, hm]
      · intro r h5 h3
        show bump_repr_var D av0 1 p.repr_genic_region_to_var_cnt r = _
        rw [hb r]
        simp [repr_memb, hm, h5, h3]
    · intro hm
      have hb := fun r => bump_repr_var_apply D av0 1
        p.repr_genic_region_to_var_cnt r
      refine ⟨?_, ?_⟩
      · show bump_repr_var D av0 1 p.repr_genic_region_to_var_cnt
          (D.get_repr_anno av0).2 = _
        rw [hb ((D.get_repr_anno av0).2)]
        simp [repr_memb, hm]
      · intro r hr
        show bump_repr_var D av0 1 p.repr_genic_region_to_var_cnt r = _
        rw [hb r]
        simp [repr_memb, hm, hr]
  · intro p l q h r
    unfold VarPeak.gene_based_anno at h
    split at h
    case isFalse => exact absurd h (by simp)
    case isTrue hl =>
      obtain rfl : _ = q := Option.some.inj h
      exact foldl_bump_repr_apply D l p.repr_genic_region_to_size r

theorem c6_witness :
    pMulti.repr_genic_region_to_var_cnt GenicRegion.UTR5 =
      pExA.repr_genic_region_to_var_cnt GenicRegion.UTR5 + 1 ∧
    pMulti.repr_genic_region_to_var_cnt GenicRegion.UTR3 =
      pExA.repr_genic_region_to_var_cnt GenicRegion.UTR3 + 1 := by
  have h := ((c6_repr_dual_count Dex).1 pExA vMulti pMulti 48 rfl rfl).1 rfl
  exact ⟨h.1, h.2.1⟩

theorem ite_app (P : Prop) [Decidable P] (f g : GenicRegion → Nat)
    (r : GenicRegion) : (if P then f else g) r = if P then f r else g r := by
  split_ifs <;> rfl

set_option maxHeartbeats 1000000 in
theorem np_code_step_apply (t : GenicRegion → Nat) (c : Nat) (r : GenicRegion) :
    np_code_step t c r = t r + (if code_flags r c then 1 else 0) := by
  by_cases hz : c = 0
  · subst hz
    rcases r <;> simp [np_code_step, tadd_apply, code_flags, bitAt]
  · simp only [np_code_step, if_neg hz]
    rcases r <;>
      simp [genic_region_list, List.foldl_cons, List.foldl_nil, ite_app,
        tadd_apply, code_flags, hz] <;>
      split_ifs <;> simp_all

theorem sgrs_fold (codes : List Nat) :
    ∀ t : GenicRegion → Nat, all_lt64 codes →
    codes.foldl (fun acc region_val => acc.bind (fun t2 =>
        if region_val < 64 then some (np_code_step t2 region_val) else none))
      (some t) =
    some (fun r => t r + codes.countP (code_flags r)) := by
  induction codes with
  | nil =>
    intro t _
    simp only [List.foldl_nil]
    exact congrArg some (funext fun r => by simp)
  | cons c codes ih =>
    intro t hall
    have hc : c < 64 := hall c (by simp)
    simp only [List.foldl_cons, Option.some_bind, if_pos hc]
    rw [ih (np_code_step t c) (fun x hx => hall x (by simp [hx]))]
    refine congrArg some (funext fun r => ?_)
    rw [np_code_step_apply t c r, List.countP_cons]
    by_cases hf : code_flags r c <;> simp [hf] <;> omega

theorem sgrs_fail (codes : List Nat) :
    ∀ t : GenicRegion → Nat, (∃ c ∈ codes, 64 ≤ c) →
    codes.foldl (fun acc region_val => acc.bind (fun t2 =>
        if region_val < 64 then some (np_code_step t2 region_val) else none))
      (some t) = none := by
  induction codes with
  | nil => rintro t ⟨c, hc, _⟩; simp at hc
  | cons c codes ih =>
    rintro t ⟨x, hx, h64⟩
    by_cases hc : c < 64
    · simp only [List.foldl_cons, Option.some_bind, if_pos hc]
      refine ih (np_code_step t c) ⟨x, ?_, h64⟩
      rcases List.mem_cons.1 hx with h | h
      · omega
      · exact h
    · simp only [List.foldl_cons, Option.some_bind, if_neg hc]
      exact foldl_bind_none
        (fun region_val t2 =>
          if region_val < 64 then some (np_code_step t2 region_val) else none)
        codes

/-- C7: for every code list whose entries are all below 64,
set_genic_region_size builds the table mapping every genic region to the
number of codes whose bit for that region is set under the fixed positional
mapping (bit 1 is ORF, 2 is 5UTR, 3 is 3UTR, 4 is ncRNA_exonic, 5 is
intronic, 6 is ncRNA_intronic; the code 0 counts as one intergenic
nucleotide); and the call fails whenever some code is at least 64. -/
theorem c7_set_genic_region_size (codes : List Nat) :
    (all_lt64 codes →
      set_genic_region_size codes =
        some (fun r => codes.countP (code_flags r))) ∧
    ((∃ c ∈ codes, 64 ≤ c) → set_genic_region_size codes = none) := by
  constructor
  · intro h
    unfold set_genic_region_size
    rw [sgrs_fold codes (fun _ => 0) h]
    exact congrArg some (funext fun r => by simp)
  · intro h
    unfold set_genic_region_size
    exact sgrs_fail codes _ h

theorem c7_witness :
    all_lt64 [34, 0, 63] ∧
    set_genic_region_size [34, 0, 63] =
      some (fun r => List.countP (code_flags r) [34, 0, 63]) ∧
    set_genic_region_size [64] = none :=
  ⟨by decide, (c7_set_genic_region_size [34, 0, 63]).1 (by decide),
    (c7_set_genic_region_size [64]).2 ⟨64, by simp, by omega⟩⟩

/-- C2 counterexample: on the concrete peak pEx the position 1 is already
present in self, yet combining pEx with itself raises
genic_region_to_var_cnt at ORF from 1 to 2 (and likewise the representative
table): the source performs the region-aggregate increment in the
already-present branch too (lines 49-61 of varpeak.py sit outside the
if/else), contrary to the claim that no increment happens in that branch. -/
theorem c2_counterexample :
    alLookup pEx.var_pos_to_cnt 1 = some 1 ∧
    pEx.combine Dex pEx = some cEx ∧
    pEx.genic_region_to_var_cnt GenicRegion.ORF = 1 ∧
    cEx.genic_region_to_var_cnt GenicRegion.ORF = 2 ∧
    pEx.repr_genic_region_to_var_cnt GenicRegion.ORF = 1 ∧
    cEx.repr_genic_region_to_var_cnt GenicRegion.ORF = 2 :=
  ⟨rfl, rfl, rfl, rfl, rfl, rfl⟩

/-- C2 amended: in combine(other), for every variant position of other that
is already present in self, the operation asserts the stored annotation value
and associated genes equal those of other, adds the count of other onto the
count of self for that position, leaves the annotation and gene maps
unchanged, and additionally applies the raw and representative
region-aggregate increments by the count of other for that position (the
aggregate increment is performed in both branches of the loop body). -/
theorem c2_combine_present_amended (D : AnnoDecoder) (s o : VarPeak) (k : Nat)
    (q : VarPeak) (c cs av gs : Nat)
    (hoc : alLookup o.var_pos_to_cnt k = some c)
    (hoa : alLookup o.var_pos_to_anno_val k = some av)
    (hog : alLookup o.var_pos_to_genes k = some gs)
    (hsc : alLookup s.var_pos_to_cnt k = some cs)
    (h : VarPeak.combine_pos D s o k = some q) :
    alLookup s.var_pos_to_anno_val k = some av ∧
    alLookup s.var_pos_to_genes k = some gs ∧
    q.var_pos_to_cnt = alSet s.var_pos_to_cnt k (cs + c) ∧
    q.var_pos_to_anno_val = s.var_pos_to_anno_val ∧
    q.var_pos_to_genes = s.var_pos_to_genes ∧
    (∀ r, q.genic_region_to_var_cnt r =
      s.genic_region_to_var_cnt r + c * memb D av r) ∧
    (∀ r, q.repr_genic_region_to_var_cnt r =
      s.repr_genic_region_to_var_cnt r + c * repr_memb D av r) := by
  obtain ⟨c2, av2, gs2, hoc2, hoa2, hog2, hbr⟩ :=
    VarPeak.combine_pos_eq D s o k q h
  obtain rfl : c = c2 := Option.some.inj (hoc.symm.trans hoc2)
  obtain rfl : av = av2 := Option.some.inj (hoa.symm.trans hoa2)
  obtain rfl : gs = gs2 := Option.some.inj (hog.symm.trans hog2)
  rcases hbr with ⟨hnone, _⟩ | ⟨c0, hsc2, hsa2, hsg2, rfl⟩
  · rw [hsc] at hnone
    exact absurd hnone (by simp)
  · obtain rfl : c0 = cs := Option.some.inj (hsc2.symm.trans hsc)
    refine ⟨hsa2, hsg2, rfl, rfl, rfl, ?_, ?_⟩
    · intro r
      exact bump_region_var_apply D av c s.genic_region_to_var_cnt r
    · intro r
      exact bump_repr_var_apply D av c s.repr_genic_region_to_var_cnt r

theorem c2_amended_witness :
    cpEx.var_pos_to_cnt = alSet pEx.var_pos_to_cnt 1 (1 + 1) ∧
    cpEx.var_pos_to_anno_val = pEx.var_pos_to_anno_val ∧
    cpEx.genic_region_to_var_cnt GenicRegion.ORF =
      pEx.genic_region_to_var_cnt GenicRegion.ORF +
        1 * memb Dex 32 GenicRegion.ORF := by
  have h := c2_combine_present_amended Dex pEx pEx 1 cpEx 1 1 32 7
    rfl rfl rfl rfl rfl
  exact ⟨h.2.2.1, h.2.2.2.1, h.2.2.2.2.2.1 GenicRegion.ORF⟩

theorem combine_self_fold (D : AnnoDecoder) (p : VarPeak)
    (hKC : VarPeak.keyConsistent p) :
    ∀ (l : List Nat) (s : VarPeak), l.Nodup →
    s.var_pos_to_anno_val = p.var_pos_to_anno_val →
    s.var_pos_to_genes = p.var_pos_to_genes →
    (∀ k ∈ l, ∃ v, alLookup p.var_pos_to_cnt k = some v ∧
       alLookup s.var_pos_to_cnt k = some v) →
    ∃ q, l.foldl (fun acc k => acc.bind (fun s2 => VarPeak.combine_pos D s2 p k))
        (some s) = some q ∧
      q.var_pos_to_anno_val = p.var_pos_to_anno_val ∧
      q.var_pos_to_genes = p.var_pos_to_genes ∧
      (∀ k ∈ l, ∃ v, alLookup p.var_pos_to_cnt k = some v ∧
         alLookup q.var_pos_to_cnt k = some (v + v)) ∧
      (∀ k, k ∉ l → alLookup q.var_pos_to_cnt k = alLookup s.var_pos_to_cnt k) := by
  intro l
  induction l with
  | nil =>
    intro s _ hsa hsg _
    exact ⟨s, rfl, hsa, hsg, by simp, fun k _ => rfl⟩
  | cons a l ih =>
    intro s hN hsa hsg hpres
    obtain ⟨haN, hNl⟩ := List.nodup_cons.1 hN
    obtain ⟨v, hpv, hsv⟩ := hpres a (by simp)
    obtain ⟨av, hpa⟩ := Option.isSome_iff_exists.1 (by
      have := (hKC a).1
      rw [hpv] at this
      exact this.1 (by simp))
    obtain ⟨g, hpg⟩ := Option.isSome_iff_exists.1 (by
      have := (hKC a).2
      rw [hpv] at this
      exact this.1 (by simp))
    have hcp : VarPeak.combine_pos D s p a =
        some { s with
          var_pos_to_cnt := alSet s.var_pos_to_cnt a (v + v)
          genic_region_to_var_cnt :=
            bump_region_var D av v s.genic_region_to_var_cnt
          repr_genic_region_to_var_cnt :=
            bump_repr_var D av v s.repr_genic_region_to_var_cnt } := by
      simp only [VarPeak.combine_pos, VarPeak.get_var_cnt_in_pos,
        VarPeak.get_anno_val_in_pos, VarPeak.get_genes_in_pos,
        hpv, hpa, hpg, hsv]
      rw [if_pos ⟨by rw [hsa]; exact hpa, by rw [hsg]; exact hpg⟩]
    obtain ⟨q, hq, hqa, hqg, hdbl, hout⟩ := ih
      { s with
        var_pos_to_cnt := alSet s.var_pos_to_cnt a (v + v)
        genic_region_to_var_cnt :=
          bump_region_var D av v s.genic_region_to_var_cnt
        repr_genic_region_to_var_cnt :=
          bump_repr_var D av v s.repr_genic_region_to_var_cnt }
      hNl hsa hsg
      (by
        intro k hk
        obtain ⟨v2, hp2, hs2⟩ := hpres k (by simp [hk])
        refine ⟨v2, hp2, ?_⟩
        show alLookup (alSet s.var_pos_to_cnt a (v + v)) k = some v2
        rw [alLookup_alSet, if_neg (fun (he : k = a) => haN (he ▸ hk))]
        exact hs2)
    refine ⟨q, ?_, hqa, hqg, ?_, ?_⟩
    · simp only [List.foldl_cons, Option.some_bind, hcp]
      exact hq
    · intro k hk
      rcases List.mem_cons.1 hk with rfl | hkl
      · refine ⟨v, hpv, ?_⟩
        rw [hout k haN]
        show alLookup (alSet s.var_pos_to_cnt k (v + v)) k = some (v + v)
        rw [alLookup_alSet, if_pos rfl]
      · exact hdbl k hkl
    · intro k hk
      have hka : k ≠ a := fun he => hk (by simp [he])
      have hkl : k ∉ l := fun he => hk (by simp [he])
      rw [hout k hkl]
      show alLookup (alSet s.var_pos_to_cnt a (v + v)) k = _
      rw [alLookup_alSet, if_neg hka]

theorem combine_disjoint_fold (D : AnnoDecoder) (o : VarPeak)
    (hKCo : VarPeak.keyConsistent o) :
    ∀ (l : List Nat) (s : VarPeak), l.Nodup →
    (∀ k ∈ l, (alLookup o.var_pos_to_cnt k).isSome) →
    (∀ k ∈ l, alLookup s.var_pos_to_cnt k = none) →
    ∃ q, l.foldl (fun acc k => acc.bind (fun s2 => VarPeak.combine_pos D s2 o k))
        (some s) = some q ∧
      (∀ k ∈ l, alLookup q.var_pos_to_cnt k = alLookup o.var_pos_to_cnt k ∧
        alLookup q.var_pos_to_anno_val k = alLookup o.var_pos_to_anno_val k ∧
        alLookup q.var_pos_to_genes k = alLookup o.var_pos_to_genes k) ∧
      (∀ k, k ∉ l → alLookup q.var_pos_to_cnt k = alLookup s.var_pos_to_cnt k ∧
        alLookup q.var_pos_to_anno_val k = alLookup s.var_pos_to_anno_val k ∧
        alLookup q.var_pos_to_genes k = alLookup s.var_pos_to_genes k) := by
  intro l
  induction l with
  | nil =>
    intro s _ _ _
    exact ⟨s, rfl, by simp, fun k _ => ⟨rfl, rfl, rfl⟩⟩
  | cons a l ih =>
    intro s hN hiso hnone
    obtain ⟨haN, hNl⟩ := List.nodup_cons.1 hN
    obtain ⟨c, hoc⟩ := Option.isSome_iff_exists.1 (hiso a (by simp))
    obtain ⟨av, hoa⟩ := Option.isSome_iff_exists.1 (by
      have := (hKCo a).1
      rw [hoc] at this
      exact this.1 (by simp))
    obtain ⟨g, hog⟩ := Option.isSome_iff_exists.1 (by
      have := (hKCo a).2
      rw [hoc] at this
      exact this.1 (by simp))
    have hsn := hnone a (by simp)
    have hcp : VarPeak.combine_pos D s o a =
        some { s with
          var_pos_to_cnt := alSet s.var_pos_to_cnt a c
          var_pos_to_anno_val := alSet s.var_pos_to_anno_val a av
          var_pos_to_genes := alSet s.var_pos_to_genes a g
          genic_region_to_var_cnt :=
            bump_region_var D av c s.genic_region_to_var_cnt
          repr_genic_region_to_var_cnt :=
            bump_repr_var D av c s.repr_genic_region_to_var_cnt } := by
      simp only [VarPeak.combine_pos, VarPeak.get_var_cnt_in_pos,
        VarPeak.get_anno_val_in_pos, VarPeak.get_genes_in_pos,
        hoc, hoa, hog, hsn]
    obtain ⟨q, hq, hin, hout⟩ := ih
      { s with
        var_pos_to_cnt := alSet s.var_pos_to_cnt a c
        var_pos_to_anno_val := alSet s.var_pos_to_anno_val a av
        var_pos_to_genes := alSet s.var_pos_to_genes a g
        genic_region_to_var_cnt :=
          bump_region_var D av c s.genic_region_to_var_cnt
        repr_genic_region_to_var_cnt :=
          bump_repr_var D av c s.repr_genic_region_to_var_cnt }
      hNl (fun k hk => hiso k (by simp [hk]))
      (by
        intro k hk
        show alLookup (alSet s.var_pos_to_cnt a c) k = none
        rw [alLookup_alSet, if_neg (fun (he : k = a) => haN (he ▸ hk))]
        exact hnone k (by simp [hk]))
    refine ⟨q, ?_, ?_, ?_⟩
    · simp only [List.foldl_cons, Option.some_bind, hcp]
      exact hq
    · intro k hk
      rcases List.mem_cons.1 hk with rfl | hkl
      · obtain ⟨h1, h2, h3⟩ := hout k haN
        rw [h1, h2, h3]
        refine ⟨?_, ?_, ?_⟩
        · show alLookup (alSet s.var_pos_to_cnt k c) k = _
          rw [alLookup_alSet, if_pos rfl, hoc]
        · show alLookup (alSet s.var_pos_to_anno_val k av) k = _
          rw [alLookup_alSet, if_pos rfl, hoa]
        · show alLookup (alSet s.var_pos_to_genes k g) k = _
          rw [alLookup_alSet, if_pos rfl, hog]
      · exact hin k hkl
    · intro k hk
      have hka : k ≠ a := fun he => hk (by simp [he])
      have hkl : k ∉ l := fun he => hk (by simp [he])
      obtain ⟨h1, h2, h3⟩ := hout k hkl
      rw [h1, h2, h3]
      refine ⟨?_, ?_, ?_⟩
      · show alLookup (alSet s.var_pos_to_cnt a c) k = _
        rw [alLookup_alSet, if_neg hka]
      · show alLookup (alSet s.var_pos_to_anno_val a av) k = _
        rw [alLookup_alSet, if_neg hka]
      · show alLookup (alSet s.var_pos_to_genes a g) k = _
        rw [alLookup_alSet, if_neg hka]

/-- C4: combine is count-additive and label-invariant: combining a reachable
peak with itself doubles every var_pos_to_cnt entry while leaving
var_pos_to_anno_val and var_pos_to_genes unchanged; and combining two
reachable peaks over the identical interval and strand whose recorded
position sets are disjoint yields exactly the union of the positions, each
with its original count, annotation value and genes. -/
theorem c4_combine_additive (D : AnnoDecoder) (p o : VarPeak)
    (hp : VarPeak.Reachable D p) (ho : VarPeak.Reachable D o) :
    (∃ q, p.combine D p = some q ∧
      (∀ k c, alLookup p.var_pos_to_cnt k = some c →
        alLookup q.var_pos_to_cnt k = some (2 * c)) ∧
      (∀ k, alLookup p.var_pos_to_cnt k = none →
        alLookup q.var_pos_to_cnt k = none) ∧
      q.var_pos_to_anno_val = p.var_pos_to_anno_val ∧
      q.var_pos_to_genes = p.var_pos_to_genes) ∧
    (p.chrom = o.chrom → p.start = o.start → p.end_ = o.end_ →
     p.strand = o.strand →
     (∀ k, alLookup p.var_pos_to_cnt k = none ∨
        alLookup o.var_pos_to_cnt k = none) →
     ∃ q, p.combine D o = some q ∧
      ∀ k, alLookup q.var_pos_to_cnt k =
          (alLookup p.var_pos_to_cnt k).or (alLookup o.var_pos_to_cnt k) ∧
        alLookup q.var_pos_to_anno_val k =
          (alLookup p.var_pos_to_anno_val k).or
            (alLookup o.var_pos_to_anno_val k) ∧
        alLookup q.var_pos_to_genes k =
          (alLookup p.var_pos_to_genes k).or (alLookup o.var_pos_to_genes k)) := by
  have hIp := VarPeak.reachable_inv D p hp
  have hIo := VarPeak.reachable_inv D o ho
  constructor
  · obtain ⟨q, hq, hqa, hqg, hdbl, hout⟩ :=
      combine_self_fold D p hIp.2.1 (p.var_pos_to_cnt.map Prod.fst) p
        hIp.1.1 rfl rfl
        (fun k hk => by
          obtain ⟨v, hv⟩ := Option.isSome_iff_exists.1
            ((alLookup_isSome_iff _ _).2 hk)
          exact ⟨v, hv, hv⟩)
    refine ⟨q, ?_, ?_, ?_, hqa, hqg⟩
    · unfold VarPeak.combine
      rw [if_pos ⟨rfl, rfl, rfl, rfl⟩]
      exact hq
    · intro k c hkc
      have hk : k ∈ p.var_pos_to_cnt.map Prod.fst :=
        (alLookup_isSome_iff _ _).1 (by simp [hkc])
      obtain ⟨v, hpv, hqv⟩ := hdbl k hk
      obtain rfl : v = c := Option.some.inj (hpv.symm.trans hkc)
      rw [hqv]
      exact congrArg some (by omega)
    · intro k hkn
      have hk : k ∉ p.var_pos_to_cnt.map Prod.fst :=
        (alLookup_eq_none_iff _ _).1 hkn
      rw [hout k hk]
      exact hkn
  · intro hc hs he hst hdisj
    obtain ⟨q, hq, hin, hout⟩ :=
      combine_disjoint_fold D o hIo.2.1 (o.var_pos_to_cnt.map Prod.fst) p
        hIo.1.1
        (fun k hk => (alLookup_isSome_iff _ _).2 hk)
        (fun k hk => by
          rcases hdisj k with h | h
          · exact h
          · exact absurd ((alLookup_isSome_iff _ _).2 hk) (by simp [h]))
    refine ⟨q, ?_, ?_⟩
    · unfold VarPeak.combine
      rw [if_pos ⟨hc, hs, he, hst⟩]
      exact hq
    · intro k
      by_cases hk : k ∈ o.var_pos_to_cnt.map Prod.fst
      · obtain ⟨h1, h2, h3⟩ := hin k hk
        have hpn : alLookup p.var_pos_to_cnt k = none := by
          rcases hdisj k with h | h
          · exact h
          · exact absurd ((alLookup_isSome_iff _ _).2 hk) (by simp [h])
        have hpan : alLookup p.var_pos_to_anno_val k = none := by
          have := (hIp.2.1 k).1
          rw [hpn] at this
          exact Option.not_isSome_iff_eq_none.1 (by simpa using this.symm.1)
        have hpgn : alLookup p.var_pos_to_genes k = none := by
          have := (hIp.2.1 k).2
          rw [hpn] at this
          exact Option.not_isSome_iff_eq_none.1 (by simpa using this.symm.1)
        rw [h1, h2, h3, hpn, hpan, hpgn]
        exact ⟨Option.none_or.symm, Option.none_or.symm, Option.none_or.symm⟩
      · obtain ⟨h1, h2, h3⟩ := hout k hk
        have hon : alLookup o.var_pos_to_cnt k = none :=
          (alLookup_eq_none_iff _ _).2 hk
        have hoan : alLookup o.var_pos_to_anno_val k = none := by
          have := (hIo.2.1 k).1
          rw [hon] at this
          exact Option.not_isSome_iff_eq_none.1 (by simpa using this.symm.1)
        have hogn : alLookup o.var_pos_to_genes k = none := by
          have := (hIo.2.1 k).2
          rw [hon] at this
          exact Option.not_isSome_iff_eq_none.1 (by simpa using this.symm.1)
        rw [h1, h2, h3, hon, hoan, hogn]
        exact ⟨Option.or_none.symm, Option.or_none.symm, Option.or_none.symm⟩

theorem pMulti_reachable : VarPeak.Reachable Dex pMulti :=
  VarPeak.Reachable.put pExA vMulti pMulti
    (VarPeak.Reachable.anno "chr1" 0 2 "+" [32, 32] pExA rfl) rfl

theorem c4_witness :
    pEx.combine Dex pEx = some cEx ∧
    alLookup cEx.var_pos_to_cnt 1 = some (2 * 1) ∧
    pEx.combine Dex pMulti = some cdEx ∧
    alLookup cdEx.var_pos_to_cnt 0 =
      (alLookup pEx.var_pos_to_cnt 0).or (alLookup pMulti.var_pos_to_cnt 0) ∧
    alLookup cdEx.var_pos_to_cnt 1 =
      (alLookup pEx.var_pos_to_cnt 1).or (alLookup pMulti.var_pos_to_cnt 1) := by
  have h := c4_combine_additive Dex pEx pMulti pEx_reachable pMulti_reachable
  obtain ⟨q1, hq1, hdbl, _, _, _⟩ := h.1
  obtain rfl : q1 = cEx := Option.some.inj (hq1.symm.trans rfl)
  have hdisj : ∀ k, alLookup pEx.var_pos_to_cnt k = none ∨
      alLookup pMulti.var_pos_to_cnt k = none := by
    intro k
    by_cases hk : k = 1
    · subst hk
      right
      rfl
    · left
      show alLookup [(1, 1)] k = none
      simp [alLookup, hk]
  obtain ⟨q2, hq2, hun⟩ := h.2 rfl rfl rfl rfl hdisj
  obtain rfl : q2 = cdEx := Option.some.inj (hq2.symm.trans rfl)
  exact ⟨hq1, hdbl 1 1 rfl, hq2, (hun 0).1, (hun 1).1⟩

theorem cut_run_lookup (D : AnnoDecoder) (source : VarPeak) :
    ∀ (l : List Nat) (acc q : VarPeak), l.Nodup →
    VarPeak.cut_run D source acc l = some q →
    (∀ k ∈ l, alLookup q.var_pos_to_cnt k = alLookup source.var_pos_to_cnt k ∧
      alLookup q.var_pos_to_anno_val k =
        alLookup source.var_pos_to_anno_val k ∧
      alLookup q.var_pos_to_genes k = alLookup source.var_pos_to_genes k) ∧
    (∀ k, k ∉ l →
      alLookup q.var_pos_to_cnt k = alLookup acc.var_pos_to_cnt k ∧
      alLookup q.var_pos_to_anno_val k = alLookup acc.var_pos_to_anno_val k ∧
      alLookup q.var_pos_to_genes k = alLookup acc.var_pos_to_genes k) := by
  intro l
  induction l with
  | nil =>
    intro acc q _ hf
    obtain rfl : acc = q := Option.some.inj hf
    exact ⟨by simp, fun k _ => ⟨rfl, rfl, rfl⟩⟩
  | cons x l ih =>
    intro acc q hN hf
    obtain ⟨hxl, hNl⟩ := List.nodup_cons.1 hN
    have hf2 : l.foldl
        (fun o var_pos => o.bind (fun a2 => VarPeak.cut_put D source a2 var_pos))
        (VarPeak.cut_put D source acc x) = some q := hf
    cases hcp : VarPeak.cut_put D source acc x with
    | none =>
      rw [hcp] at hf2
      exact absurd (hf2.symm.trans (foldl_bind_none _ l)) (by simp)
    | some acc2 =>
      rw [hcp] at hf2
      obtain ⟨c, av, gs, hc2, ha2, hg2, rfl⟩ :=
        VarPeak.cut_put_eq D source acc x acc2 hcp
      obtain ⟨hin, hout⟩ := ih _ q hNl hf2
      constructor
      · intro k hk
        rcases List.mem_cons.1 hk with rfl | hkl
        · obtain ⟨h1, h2, h3⟩ := hout k hxl
          rw [h1, h2, h3]
          refine ⟨?_, ?_, ?_⟩
          · show alLookup (alSet acc.var_pos_to_cnt k c) k = _
            rw [alLookup_alSet, if_pos rfl, hc2]
          · show alLookup (alSet acc.var_pos_to_anno_val k av) k = _
            rw [alLookup_alSet, if_pos rfl, ha2]
          · show alLookup (alSet acc.var_pos_to_genes k gs) k = _
            rw [alLookup_alSet, if_pos rfl, hg2]
        · exact hin k hkl
      · intro k hk
        have hkx : k ≠ x := fun he => hk (by simp [he])
        have hkl : k ∉ l := fun he => hk (by simp [he])
        obtain ⟨h1, h2, h3⟩ := hout k hkl
        rw [h1, h2, h3]
        refine ⟨?_, ?_, ?_⟩
        · show alLookup (alSet acc.var_pos_to_cnt x c) k = _
          rw [alLookup_alSet, if_neg hkx]
        · show alLookup (alSet acc.var_pos_to_anno_val x av) k = _
          rw [alLookup_alSet, if_neg hkx]
        · show alLookup (alSet acc.var_pos_to_genes x gs) k = _
          rw [alLookup_alSet, if_neg hkx]

theorem rescan_eq_keys_sum (w : Nat → GenicRegion → Nat)
    (m anno : List (Nat × Nat)) (r : GenicRegion)
    (hN : (m.map Prod.fst).Nodup) :
    rescan_with w m anno r =
      ((m.map Prod.fst).map
        (fun k => (alLookup m k).getD 0 * wlook w anno k r)).sum := by
  induction m with
  | nil => rfl
  | cons e rest ih =>
    obtain ⟨k0, v0⟩ := e
    rw [List.map_cons, List.nodup_cons] at hN
    obtain ⟨hk0, hNr⟩ := hN
    unfold rescan_with at ih ⊢
    simp only [List.map_cons, List.sum_cons]
    have hhead : (alLookup ((k0, v0) :: rest) k0).getD 0 = v0 := by
      simp [alLookup]
    have htail : (rest.map Prod.fst).map
        (fun k => (alLookup ((k0, v0) :: rest) k).getD 0 * wlook w anno k r) =
        (rest.map Prod.fst).map
          (fun k => (alLookup rest k).getD 0 * wlook w anno k r) := by
      apply List.map_congr_left
      intro k hk
      have hne : k ≠ k0 := fun he => hk0 (he ▸ hk)
      simp [alLookup, hne]
    rw [hhead, htail, ih hNr]

theorem rescan_ext (w : Nat → GenicRegion → Nat)
    (m1 anno1 m2 anno2 : List (Nat × Nat)) (r : GenicRegion)
    (hN1 : (m1.map Prod.fst).Nodup) (hN2 : (m2.map Prod.fst).Nodup)
    (hm : ∀ k, alLookup m1 k = alLookup m2 k)
    (ha : ∀ k, alLookup anno1 k = alLookup anno2 k) :
    rescan_with w m1 anno1 r = rescan_with w m2 anno2 r := by
  rw [rescan_eq_keys_sum w m1 anno1 r hN1, rescan_eq_keys_sum w m2 anno2 r hN2]
  have hperm : (m1.map Prod.fst).Perm (m2.map Prod.fst) := by
    refine (List.perm_ext_iff_of_nodup hN1 hN2).2 ?_
    intro k
    rw [← alLookup_isSome_iff, ← alLookup_isSome_iff, hm k]
  have hfun : ∀ k, (alLookup m1 k).getD 0 * wlook w anno1 k r =
      (alLookup m2 k).getD 0 * wlook w anno2 k r := by
    intro k
    rw [hm k]
    unfold wlook
    rw [ha k]
  rw [List.map_congr_left (fun k _ => hfun k)]
  exact (hperm.map _).sum_eq

/-- C3: cut is a faithful restriction: for every reachable peak and every
valid sub-interval, every recorded position inside the sub-interval keeps its
per-position count, annotation value and genes in the cut result; and the
full-interval cut reproduces the variant maps, the annotation vector and all
four size and aggregate tables of the original peak. -/
theorem c3_cut_faithful (D : AnnoDecoder) (p : VarPeak) (a b : Nat)
    (q : VarPeak) (hp : VarPeak.Reachable D p)
    (hab : p.start ≤ a ∧ a < b ∧ b ≤ p.end_)
    (h : p.cut D a b = some q) :
    (∀ k, (alLookup p.var_pos_to_cnt k).isSome → a ≤ k → k < b →
      q.get_var_cnt_in_pos k = p.get_var_cnt_in_pos k ∧
      alLookup q.var_pos_to_anno_val k = alLookup p.var_pos_to_anno_val k ∧
      alLookup q.var_pos_to_genes k = alLookup p.var_pos_to_genes k) ∧
    (a = p.start → b = p.end_ →
      (∀ k, alLookup q.var_pos_to_cnt k = alLookup p.var_pos_to_cnt k ∧
        alLookup q.var_pos_to_anno_val k = alLookup p.var_pos_to_anno_val k ∧
        alLookup q.var_pos_to_genes k = alLookup p.var_pos_to_genes k) ∧
      q.anno_vals = p.anno_vals ∧
      q.genic_region_to_size = p.genic_region_to_size ∧
      q.repr_genic_region_to_size = p.repr_genic_region_to_size ∧
      q.genic_region_to_var_cnt = p.genic_region_to_var_cnt ∧
      q.repr_genic_region_to_var_cnt = p.repr_genic_region_to_var_cnt) := by
  have hIp := VarPeak.reachable_inv D p hp
  unfold VarPeak.cut at h
  rw [if_pos hab] at h
  cases hgba : (VarPeak.mk0 p.chrom a b p.strand).gene_based_anno D
      ((p.anno_vals.drop (a - p.start)).take ((b - p.start) - (a - p.start))) with
  | none =>
    simp only [hgba] at h
    exact absurd h (by simp)
  | some cut_peak =>
    simp only [hgba] at h
    rw [VarPeak.cut_loop_eq_run] at h
    obtain ⟨hInvC, hcc, hcs, hce, hcst, hcav, hcnt0, hanno0, hgen0⟩ :=
      VarPeak.gba_mk0_inv D p.chrom a b p.strand _ cut_peak hgba
    have hlen : ((p.anno_vals.drop (a - p.start)).take
        ((b - p.start) - (a - p.start))).length = b - a := by
      unfold VarPeak.gene_based_anno at hgba
      split at hgba
      case isFalse => exact absurd hgba (by simp)
      case isTrue hl => simpa [VarPeak.mk0, VarPeak.get_size] using hl
    have hscan := VarPeak.scan_positions_eq_filter p.get_var_pos_list a b
      (VarPeak.get_var_pos_list_sorted p)
    have hNL : (VarPeak.scan_positions p.get_var_pos_list a b).Nodup := by
      rw [hscan]
      exact ((VarPeak.get_var_pos_list_perm p).nodup_iff.2 hIp.1.1).filter _
    have hmemL : ∀ k, k ∈ VarPeak.scan_positions p.get_var_pos_list a b ↔
        ((alLookup p.var_pos_to_cnt k).isSome ∧ a ≤ k ∧ k < b) := by
      intro k
      rw [hscan, List.mem_filter]
      constructor
      · rintro ⟨hk1, hk2⟩
        simp at hk2
        exact ⟨(alLookup_isSome_iff _ _).2
          ((VarPeak.get_var_pos_list_perm p).mem_iff.1 hk1), hk2.1, hk2.2⟩
      · rintro ⟨hk1, hk2, hk3⟩
        refine ⟨(VarPeak.get_var_pos_list_perm p).mem_iff.2
          ((alLookup_isSome_iff _ _).1 hk1), ?_⟩
        simp [hk2, hk3]
    obtain ⟨hin, hout⟩ := cut_run_lookup D p _ cut_peak q hNL h
    have hran : ∀ k ∈ VarPeak.scan_positions p.get_var_pos_list a b,
        cut_peak.start ≤ k ∧ k < cut_peak.end_ := by
      intro k hk
      obtain ⟨_, hk2, hk3⟩ := (hmemL k).1 hk
      rw [hcs, hce]
      exact ⟨hk2, hk3⟩
    have hfr : ∀ k ∈ VarPeak.scan_positions p.get_var_pos_list a b,
        alLookup cut_peak.var_pos_to_cnt k = none := by
      intro k _
      rw [hcnt0]
      rfl
    obtain ⟨hInvQ, hqc, hqs, hqe, hqst, hqav, hqsz, hqrsz⟩ :=
      VarPeak.cut_run_inv D p _ cut_peak q hInvC hran hNL hfr h
    constructor
    · intro k hkS hak hkb
      obtain ⟨h1, h2, h3⟩ := hin k ((hmemL k).2 ⟨hkS, hak, hkb⟩)
      exact ⟨h1, h2, h3⟩
    · rintro rfl rfl
      have hmaps : ∀ k,
          alLookup q.var_pos_to_cnt k = alLookup p.var_pos_to_cnt k ∧
          alLookup q.var_pos_to_anno_val k = alLookup p.var_pos_to_anno_val k ∧
          alLookup q.var_pos_to_genes k = alLookup p.var_pos_to_genes k := by
        intro k
        by_cases hkL : k ∈ VarPeak.scan_positions p.get_var_pos_list
            p.start p.end_
        · exact hin k hkL
        · obtain ⟨h1, h2, h3⟩ := hout k hkL
          have hpn : alLookup p.var_pos_to_cnt k = none := by
            cases hpc : alLookup p.var_pos_to_cnt k with
            | none => rfl
            | some c =>
              exact absurd ((hmemL k).2 ⟨by simp [hpc],
                (hIp.2.2.1 k (by simp [hpc])).1,
                (hIp.2.2.1 k (by simp [hpc])).2⟩) hkL
          have hpan : alLookup p.var_pos_to_anno_val k = none := by
            have := (hIp.2.1 k).1
            rw [hpn] at this
            exact Option.not_isSome_iff_eq_none.1 (by simpa using this.symm.1)
          have hpgn : alLookup p.var_pos_to_genes k = none := by
            have := (hIp.2.1 k).2
            rw [hpn] at this
            exact Option.not_isSome_iff_eq_none.1 (by simpa using this.symm.1)
          rw [h1, h2, h3, hcnt0, hanno0, hgen0]
          exact ⟨by rw [hpn]; rfl, by rw [hpan]; rfl, by rw [hpgn]; rfl⟩
      have hsl : (p.anno_vals.drop (p.start - p.start)).take
          ((p.end_ - p.start) - (p.start - p.start)) = p.anno_vals := by
        rcases hIp.2.2.2.2.2 with hnil | hl
        · rw [hnil] at hlen ⊢
          simp at hlen
          omega
        · rw [Nat.sub_self, List.drop_zero, Nat.sub_zero]
          exact List.take_of_length_le (by rw [hl])
      have hqanno : q.anno_vals = p.anno_vals := by rw [hqav, hcav, hsl]
      refine ⟨hmaps, hqanno, ?_, ?_, ?_, ?_⟩
      · funext r
        rw [hqsz, (hInvC.2.2.2.2.1 r).1, (hIp.2.2.2.2.1 r).1, hcav, hsl]
      · funext r
        rw [hqrsz, (hInvC.2.2.2.2.1 r).2, (hIp.2.2.2.2.1 r).2, hcav, hsl]
      · funext r
        rw [(hInvQ.2.2.2.1 r).1, (hIp.2.2.2.1 r).1]
        exact rescan_ext (memb D) q.var_pos_to_cnt q.var_pos_to_anno_val
          p.var_pos_to_cnt p.var_pos_to_anno_val r hInvQ.1.1 hIp.1.1
          (fun k => (hmaps k).1) (fun k => (hmaps k).2.1)
      · funext r
        rw [(hInvQ.2.2.2.1 r).2, (hIp.2.2.2.1 r).2]
        exact rescan_ext (repr_memb D) q.var_pos_to_cnt q.var_pos_to_anno_val
          p.var_pos_to_cnt p.var_pos_to_anno_val r hInvQ.1.1 hIp.1.1
          (fun k => (hmaps k).1) (fun k => (hmaps k).2.1)

theorem c3_witness :
    qEx.get_var_cnt_in_pos 1 = pEx.get_var_cnt_in_pos 1 ∧
    alLookup qEx.var_pos_to_anno_val 1 = alLookup pEx.var_pos_to_anno_val 1 ∧
    qEx.anno_vals = pEx.anno_vals ∧
    qEx.genic_region_to_size = pEx.genic_region_to_size ∧
    qEx.genic_region_to_var_cnt = pEx.genic_region_to_var_cnt := by
  have h := c3_cut_faithful Dex pEx 0 2 qEx pEx_reachable
    ⟨by decide, by decide, by decide⟩ rfl
  have hfull := h.2 rfl rfl
  exact ⟨(h.1 1 (by decide) (by decide) (by decide)).1,
    (h.1 1 (by decide) (by decide) (by decide)).2.1,
    hfull.2.1, hfull.2.2.1, hfull.2.2.2.2.1⟩
